import Mathlib

set_option maxHeartbeats 1000000

/-!
Verification of the firmware-transfer engine of `fxload` (`src/ezusb.c`).

The C code is shallowly embedded as executable Lean functions:

* the USB transport is modelled by an oracle `sched : Nat → Int` giving the
  status returned to the k-th control request of a run (k = position in the
  request trace), plus `rdval : Nat → Nat` giving the byte delivered by a read
  request; every issued request is recorded in a trace of `Req` values;
* C `unsigned short` arithmetic is `Nat` with explicit `% 65536` where the C
  truncates; `unsigned char` values are `Nat` with `% 256` / `&&& 0xff`;
* input hex files are lists of lines, each line a list of bytes (the C reads
  lines with fgets into a `char` buffer; the trailing newline, stripped by the
  C before any field is parsed, is not part of the modelled line; bytes of a
  short line beyond its terminator are treated as absent, i.e. as a fresh
  zeroed buffer);
* `strtoul(_, 0, 16)` is modelled by `strtoul16`: skip leading whitespace,
  accept an optional `0x` prefix when followed by a hex digit, then the value
  of the longest hex-digit prefix (0 if none).

Functions keep their C names: `fx_is_external`, `fx2_is_external`,
`fx2lp_is_external`, `parse_ihex`, `eeprom_poke`, `ram_poke`,
`ezusb_load_eeprom`, `ezusb_erase_eeprom`.
-/

/-! ### Vendor request codes (ezusb.c lines 175-179) -/

def RW_INTERNAL : Nat := 0xA0
def RW_EEPROM : Nat := 0xA2
def RW_EEPROM_LARGE : Nat := 0xA9
def RW_MEMORY : Nat := 0xA3
def GET_EEPROM_SIZE : Nat := 0xA5

/-! ### errno values used by the source (Linux) -/

def EINVAL : Int := 22
def EDOM : Int := 33
def ETIMEDOUT : Nat := 110

/-! ### Memory classifiers (ezusb.c lines 65-116) -/

/-- `fx_is_external` (ezusb.c:65): true iff [addr,addr+len) includes external
RAM for AnchorChips EZ-USB / Cypress EZ-USB FX. -/
def fx_is_external (addr len : Nat) : Bool :=
  if addr ≤ 0x1b3f then decide (0x1b40 < addr + len) else true

/-- `fx2_is_external` (ezusb.c:84): true iff [addr,addr+len) includes external
RAM for Cypress EZ-USB FX2. -/
def fx2_is_external (addr len : Nat) : Bool :=
  if addr ≤ 0x1fff then decide (0x2000 < addr + len)
  else if 0xe000 ≤ addr ∧ addr ≤ 0xe1ff then decide (0xe200 < addr + len)
  else true

/-- `fx2lp_is_external` (ezusb.c:103): like FX2 with a 16KB low window. -/
def fx2lp_is_external (addr len : Nat) : Bool :=
  if addr ≤ 0x3fff then decide (0x4000 < addr + len)
  else if 0xe000 ≤ addr ∧ addr ≤ 0xe1ff then decide (0xe200 < addr + len)
  else true

/-! ### The transport: control requests and their trace -/

/-- One vendor control request issued to the device: a read
(opcode, address, length) or a write (opcode, address, payload). -/
inductive Req where
  | read : Nat → Nat → Nat → Req
  | write : Nat → Nat → List Nat → Req
deriving DecidableEq, Repr

/-- Whether a request is a write. -/
def isWriteReq : Req → Bool
  | .read _ _ _ => false
  | .write _ _ _ => true

/-- `ezusb_write` (ezusb.c:213): issue a vendor write request.  The status is
supplied by the schedule oracle at the request's position in the trace; the
`unsigned short addr` parameter truncates the address mod 2^16. -/
def ezusb_write (sched : Nat → Int) (tr : List Req) (opcode addr : Nat)
    (data : List Nat) : Int × List Req :=
  (sched tr.length, tr ++ [Req.write opcode (addr % 65536) data])

/-- `ezusb_read` (ezusb.c:185): issue a vendor read request; returns the status
and the byte delivered into the caller's buffer (for a failed read the C buffer
is uninitialized, modelled as an arbitrary oracle-chosen byte). -/
def ezusb_read (sched : Nat → Int) (rdval : Nat → Nat) (tr : List Req)
    (opcode addr len : Nat) : Int × Nat × List Req :=
  (sched tr.length, rdval tr.length % 256, tr ++ [Req.read opcode (addr % 65536) len])

/-! ### Intel HEX text parsing (ezusb.c:297-432) -/

/-- Is the byte an ASCII hex digit. -/
def isHexDigitB (b : Nat) : Bool :=
  (48 ≤ b ∧ b ≤ 57) ∨ (97 ≤ b ∧ b ≤ 102) ∨ (65 ≤ b ∧ b ≤ 70)

/-- Value of an ASCII hex digit. -/
def hexVal (b : Nat) : Nat :=
  if b ≤ 57 then b - 48 else if b ≤ 70 then b - 55 else b - 87

/-- Is the byte ASCII whitespace (as C `isspace`). -/
def isSpaceB (b : Nat) : Bool := b = 32 ∨ (9 ≤ b ∧ b ≤ 13)

/-- Value of the longest hex-digit prefix, accumulator style. -/
def hexPrefixVal : List Nat → Nat → Nat
  | [], acc => acc
  | b :: rest, acc =>
      if isHexDigitB b then hexPrefixVal rest (16 * acc + hexVal b) else acc

/-- Drop leading whitespace bytes. -/
def skipSpaces : List Nat → List Nat
  | [] => []
  | b :: r => if isSpaceB b then skipSpaces r else b :: r

/-- `strtoul(s, 0, 16)` on a byte string. -/
def strtoul16 (s : List Nat) : Nat :=
  match skipSpaces s with
  | 48 :: x :: r =>
      if (x = 120 ∨ x = 88) ∧ isHexDigitB (r.headD 0) then
        hexPrefixVal r 0
      else hexPrefixVal (48 :: x :: r) 0
  | s' => hexPrefixVal s' 0

/-- Field of `n` bytes at offset `i` of a record line, parsed as hex (the C
temporarily NUL-terminates the field and calls `strtoul`). -/
def ihexField (l : List Nat) (i n : Nat) : Nat :=
  strtoul16 ((l.drop i).take n)

/-- The `len` data bytes of a record line, each from two hex chars starting at
offset 9 (ezusb.c:413-418). -/
def ihexBytes (l : List Nat) (len : Nat) : List Nat :=
  (List.range len).map (fun i => ihexField l (9 + 2 * i) 2)

/-- Flush the buffered segment (ezusb.c:399-410 and 424-430): evaluate the
classifier on the buffer's start address and total length, invoke the sink
once, map a negative sink status to -1.  Returns (status, context, the value
left in the C `external` variable). -/
def ihexFlush {σ : Type} (isExt : Option (Nat → Nat → Bool))
    (poke : σ → Nat → Bool → List Nat → Int × σ)
    (ctx : σ) (daddr : Nat) (data : List Nat) (ext : Bool) : Int × σ × Bool :=
  if data = [] then (0, ctx, ext)
  else
    let e := match isExt with
             | some f => f daddr data.length
             | none => ext
    let pr := poke ctx daddr e data
    if pr.1 < 0 then (-1, pr.2, e) else (0, pr.2, e)

/-- The record-reading loop of `parse_ihex` (ezusb.c:322-431).  State:
remaining lines, sink context, `data_addr`, buffered `data` bytes,
`first_line`, and the `external` flag variable. -/
def parse_ihex_go {σ : Type} (isExt : Option (Nat → Nat → Bool))
    (poke : σ → Nat → Bool → List Nat → Int × σ) :
    List (List Nat) → σ → Nat → List Nat → Bool → Bool → Int × σ
  | [], ctx, daddr, data, _, ext =>
      -- fgets returned NULL: "EOF without EOF record!" is logged, the loop
      -- breaks, remaining data is flushed, and 0 is returned (ezusb.c:329-332,
      -- 423-431)
      let fl := ihexFlush isExt poke ctx daddr data ext
      (fl.1, fl.2.1)
  | l :: rest, ctx, daddr, data, first, ext =>
      if l.head? = some 35 then
        -- '#' comment extension (ezusb.c:335)
        parse_ihex_go isExt poke rest ctx daddr data first ext
      else if l.head? ≠ some 58 then (-2, ctx)  -- not an ihex record
      else
        let len := ihexField l 1 2
        let off := ihexField l 3 4
        let daddr1 := if first then off % 65536 else daddr
        let rtype := ihexField l 7 2
        if rtype = 1 then
          -- EOF record: break, flush remaining data, return 0
          let fl := ihexFlush isExt poke ctx daddr1 data ext
          (fl.1, fl.2.1)
        else if rtype ≠ 0 then (-3, ctx)  -- unsupported record type
        else if 2 * len + 11 > l.length then (-4, ctx)  -- record too short
        else if data ≠ [] ∧ (off ≠ daddr1 + data.length ∨ 1023 < data.length + len) then
          -- not contiguous, or buffer would exceed 1023 bytes: flush first
          let fl := ihexFlush isExt poke ctx daddr1 data ext
          if fl.1 < 0 then (-1, fl.2.1)
          else parse_ihex_go isExt poke rest fl.2.1 (off % 65536) (ihexBytes l len) false fl.2.2
        else
          -- append to saved data, flush later
          parse_ihex_go isExt poke rest ctx daddr1 (data ++ ihexBytes l len) false ext

/-- `parse_ihex` (ezusb.c:297): parse an Intel HEX image, reporting merged
memory segments to the sink; initial state has an empty buffer, `data_addr`
0, `first_line` set, `external` clear. -/
def parse_ihex {σ : Type} (lines : List (List Nat)) (ctx : σ)
    (isExt : Option (Nat → Nat → Bool))
    (poke : σ → Nat → Bool → List Nat → Int × σ) : Int × σ :=
  parse_ihex_go isExt poke lines ctx 0 [] true false

/-- Bytes of a string literal, for concrete hex-file inputs. -/
def sbytes (s : String) : List Nat := s.data.map Char.toNat

/-- A recording sink: accumulates each delivered segment, always succeeds. -/
def recPoke (c : List (Nat × Bool × List Nat)) (a : Nat) (e : Bool)
    (d : List Nat) : Int × List (Nat × Bool × List Nat) :=
  (0, c ++ [(a, e, d)])

/-- Schedule oracle for a cursor-wrap run: every control request succeeds
except the one at trace position 78644 (which will be the trailer's
config-byte write). -/
def caSched : Nat → Int := fun k => if k = 78644 then -1 else 1

/-- A 1-byte type-0 record at offset 0 (the line `:01000000AA54`). -/
def caLine : List Nat := sbytes ":01000000AA54"

/-- 39320 copies of `caLine`: every record after the first is non-contiguous
with the buffer (offset 0 against buffer end 1), so each flushes the previous
1-byte segment and the EEPROM cursor advances 4 + 1 bytes per flush. -/
def caLines : List (List Nat) := List.replicate 39320 caLine

/-- The two framing writes of one flushed 1-byte segment at cursor `c`,
iterated: header `[0, 1, 0, 0]` at `c`, payload `[0xAA]` at `c + 4`. -/
def caFlushes : Nat → Nat → List Req
  | _, 0 => []
  | c, n + 1 =>
      Req.write RW_EEPROM (c % 65536) [0, 1, 0, 0] ::
      Req.write RW_EEPROM ((c + 4) % 65536) [170] ::
      caFlushes ((c + 4 + 1) % 65536) n

/-- The (16-bit) EEPROM cursor after `n` flushed 1-byte segments from `c`. -/
def caCursor : Nat → Nat → Nat
  | c, 0 => c
  | c, n + 1 => caCursor ((c + 4 + 1) % 65536) n

/-! ### EEPROM segment framing (ezusb.c:615-674) -/

/-- `struct eeprom_poke_context` (ezusb.c:618): next free EEPROM address,
last-segment flag, and the request code used to access the EEPROM.  (The
device handle is implicit in the transport oracle.) -/
structure eeprom_poke_context where
  ee_addr : Nat
  last : Bool
  eeprom_request : Nat
deriving DecidableEq, Repr

/-- `eeprom_poke` (ezusb.c:625): frame one segment into the EEPROM image.
The sink context is the C context paired with the device request trace.
`ee_addr` is an `unsigned short` field, truncated mod 2^16 when advanced. -/
def eeprom_poke (sched : Nat → Int) :
    eeprom_poke_context × List Req → Nat → Bool → List Nat →
      Int × (eeprom_poke_context × List Req) :=
  fun s addr ext data =>
    let ctx := s.1
    let tr := s.2
    if ext then (-EINVAL, (ctx, tr))
    else if 1023 < data.length then (-EDOM, (ctx, tr))
    else
      let header : List Nat :=
        [(data.length >>> 8) ||| (if ctx.last then 0x80 else 0),
         data.length % 256, (addr >>> 8) % 256, addr % 256]
      let w1 := ezusb_write sched tr ctx.eeprom_request ctx.ee_addr header
      if w1.1 < 0 then (w1.1, (ctx, w1.2))
      else
        let w2 := ezusb_write sched w1.2 ctx.eeprom_request (ctx.ee_addr + 4) data
        if w2.1 < 0 then (w2.1, (ctx, w2.2))
        else (0, ({ ctx with ee_addr := (ctx.ee_addr + 4 + data.length) % 65536 }, w2.2))

/-- Trailer of `ezusb_load_eeprom` (ezusb.c:837-859): config byte (skipped
for an21), FX reserved byte, then the bootable type byte at offset 0. -/
def ezusb_load_eeprom_trailer (sched : Nat → Int) (ty : String)
    (first_byte rq cfg : Nat) (tr : List Req) : Int × List Req :=
  -- config byte for FX, FX2 (ezusb.c:837-844)
  let s3 : Int × List Req :=
    if ty ≠ "an21" then ezusb_write sched tr rq 7 [cfg] else (0, tr)
  if s3.1 < 0 then (s3.1, s3.2)
  else
    -- EZ-USB FX reserved byte (ezusb.c:846-853)
    let s4 : Int × List Req :=
      if ty = "fx" then ezusb_write sched s3.2 rq 8 [0] else (0, s3.2)
    if s4.1 < 0 then (s4.1, s4.2)
    else
      -- make the EEPROM say to boot from this EEPROM (ezusb.c:855-859)
      let s5 := ezusb_write sched s4.2 rq 0 [first_byte]
      if s5.1 < 0 then (s5.1, s5.2) else (0, s5.2)

/-- Image-scanning part of `ezusb_load_eeprom` (ezusb.c:817-835) followed by
the trailer: when a path is given, scan the image through `eeprom_poke` from
the variant's initial cursor, then append the last-marked reset frame
targeting CPUCS. -/
def ezusb_load_eeprom_tail (sched : Nat → Int) (path : Option (List (List Nat)))
    (ty : String) (isExt : Nat → Nat → Bool)
    (first_byte cpucs_addr ee0 rq cfg : Nat) (tr : List Req) : Int × List Req :=
  match path with
  | none => ezusb_load_eeprom_trailer sched ty first_byte rq cfg tr
  | some lines =>
      let pr := parse_ihex lines
        (({ ee_addr := ee0, last := false, eeprom_request := rq } :
           eeprom_poke_context), tr)
        (some isExt) (eeprom_poke sched)
      if pr.1 < 0 then (pr.1, pr.2.2)
      else
        let ctx1 := { pr.2.1 with last := true }
        let rp := eeprom_poke sched (ctx1, pr.2.2) cpucs_addr false [0]
        if rp.1 < 0 then (rp.1, rp.2.2)
        else ezusb_load_eeprom_trailer sched ty first_byte rq cfg rp.2.2

/-- Common part of `ezusb_load_eeprom` after the per-variant dispatch
(ezusb.c:789-866): unbootable marker, optional identity block, then the image
scan and trailer. -/
def ezusb_load_eeprom_body (sched : Nat → Int) (path : Option (List (List Nat)))
    (ty : String) (isExt : Nat → Nat → Bool)
    (first_byte cpucs_addr ee0 rq cfg vid0 pid0 : Nat)
    (ww_config_vid ww_config_pid : Int) (tr : List Req) : Int × List Req :=
  -- make sure the EEPROM won't be used for booting (ezusb.c:789-796)
  let w := ezusb_write sched tr rq 0 [0]
  if w.1 < 0 then (w.1, w.2)
  else
    -- resolve vendor/product ids (ezusb.c:798-799); `ww_vid`/`ww_pid` are
    -- unsigned short, so a non-negative override is truncated mod 2^16
    let ww_vid := if 0 ≤ ww_config_vid then ww_config_vid.toNat % 65536 else vid0
    let ww_pid := if 0 ≤ ww_config_pid then ww_config_pid.toNat % 65536 else pid0
    -- identity block at offset 1 (ezusb.c:801-815)
    let s1 : Int × List Req :=
      if ww_vid ≠ 0 ∧ ww_pid ≠ 0 then
        ezusb_write sched w.2 rq 1
          [ww_vid &&& 0xff, (ww_vid >>> 8) &&& 0xff,
           ww_pid &&& 0xff, (ww_pid >>> 8) &&& 0xff, 0x05, 0xa0]
      else (0, w.2)
    if s1.1 < 0 then (s1.1, s1.2)
    else
      ezusb_load_eeprom_tail sched path ty isExt first_byte cpucs_addr ee0 rq cfg s1.2

/-- Default vendor id baked into the fx2/fx2lp branches
(ezusb.c:723, 742); 0 for fx and an21. -/
def eeprom_default_vid (ty : String) : Nat :=
  if ty = "fx2" ∨ ty = "fx2lp" then 0x04B4 else 0

/-- Default product id baked into the fx2/fx2lp branches
(ezusb.c:724, 743); 0 for fx and an21. -/
def eeprom_default_pid (ty : String) : Nat :=
  if ty = "fx2" then 0x6473 else if ty = "fx2lp" then 0x8613 else 0

/-- Resolution of an identity override (ezusb.c:798-799): a non-negative
override is taken (truncated to unsigned short), otherwise the variant
default. -/
def resolved_ww (ovr : Int) (dflt : Nat) : Nat :=
  if 0 ≤ ovr then ovr.toNat % 65536 else dflt

/-- Per-variant dispatch of `ezusb_load_eeprom` (ezusb.c:715-787), selecting
the type byte, CPUCS address, classifier, initial EEPROM cursor, masked
config byte and default identity. -/
def ezusb_load_eeprom_dispatch (sched : Nat → Int) (path : Option (List (List Nat)))
    (ty : String) (config : Nat) (rq : Nat) (ww_config_vid ww_config_pid : Int)
    (tr : List Req) : Int × List Req :=
  if ty = "fx2" then
    ezusb_load_eeprom_body sched path ty fx2_is_external
      (if path.isSome then 0xC2 else 0xC0) 0xe600 8 rq (config &&& 0x4f)
      0x04B4 0x6473 ww_config_vid ww_config_pid tr
  else if ty = "fx2lp" then
    ezusb_load_eeprom_body sched path ty fx2lp_is_external
      (if path.isSome then 0xC2 else 0xC0) 0xe600 8 rq (config &&& 0x4f)
      0x04B4 0x8613 ww_config_vid ww_config_pid tr
  else if ty = "fx" then
    if path.isNone then (-1, tr)
    else
      ezusb_load_eeprom_body sched path ty fx_is_external 0xB6 0x7f92 9 rq
        (config &&& 0x07) 0 0 ww_config_vid ww_config_pid tr
  else if ty = "an21" then
    if path.isNone then (-1, tr)
    else
      ezusb_load_eeprom_body sched path ty fx_is_external 0xB2 0x7f92 7 rq
        0 0 0 ww_config_vid ww_config_pid tr
  else (-1, tr)

/-- `ezusb_load_eeprom` (ezusb.c:684): probe the EEPROM type when an image
path is given (a hex image is a list of record lines; `none` = NULL path),
then dispatch on the microcontroller type.  Returns the C status and the
trace of control requests issued to the device. -/
def ezusb_load_eeprom (sched : Nat → Int) (rdval : Nat → Nat)
    (path : Option (List (List Nat))) (ty : String) (config : Nat)
    (large_eeprom : Bool) (ww_config_vid ww_config_pid : Int) : Int × List Req :=
  let rq := if large_eeprom then RW_EEPROM_LARGE else RW_EEPROM
  match path with
  | some lines =>
      -- ezusb_get_eeprom_type check (ezusb.c:695-700)
      let rd := ezusb_read sched rdval [] GET_EEPROM_SIZE 0 1
      if (rd.1 ≠ 1 ∨ rd.2.1 ≠ 1) ∧ rd.2.1 ≠ 0 then (-1, rd.2.2)
      else ezusb_load_eeprom_dispatch sched (some lines) ty config rq
             ww_config_vid ww_config_pid rd.2.2
  | none =>
      ezusb_load_eeprom_dispatch sched none ty config rq
        ww_config_vid ww_config_pid []

/-! ### RAM writing (ezusb.c:441-514) -/

/-- `ram_mode` (ezusb.c:441). -/
inductive ram_mode where
  | undef | internal_only | skip_internal | skip_external
deriving DecidableEq, Repr

/-- `struct ram_poke_context` (ezusb.c:448), device handle implicit. -/
structure ram_poke_context where
  mode : ram_mode
  total : Nat
  count : Nat
deriving DecidableEq, Repr

def RETRY_LIMIT : Nat := 5

/-- The retry loop of `ram_poke` (ezusb.c:504-512): attempt the write; retry
while the status is negative, the retry budget is not exhausted, and errno is
ETIMEDOUT.  `errn` gives the errno left by the k-th request.  Returns the
last status and the trace including every attempt. -/
def ram_write_attempts (sched : Nat → Int) (errn : Nat → Nat) (opcode addr : Nat)
    (data : List Nat) : Nat → List Req → Int × List Req
  | budget, tr =>
      let rc := sched tr.length
      let e := errn tr.length
      let tr1 := tr ++ [Req.write opcode (addr % 65536) data]
      if rc < 0 then
        match budget with
        | 0 => (rc, tr1)
        | b + 1 =>
            if e ≠ ETIMEDOUT then (rc, tr1)
            else ram_write_attempts sched errn opcode addr data b tr1
      else (rc, tr1)

/-- The writing tail of `ram_poke` (ezusb.c:498-513): update totals, run the
retry loop, return `-errno` on a final failure. -/
def ram_poke_write (sched : Nat → Int) (errn : Nat → Nat) (ctx : ram_poke_context)
    (tr : List Req) (addr : Nat) (ext : Bool) (data : List Nat) :
    Int × ram_poke_context × List Req :=
  let ctx1 := { ctx with total := ctx.total + data.length, count := ctx.count + 1 }
  let a := ram_write_attempts sched errn (if ext then RW_MEMORY else RW_INTERNAL)
             addr data RETRY_LIMIT tr
  (if a.1 < 0 then -(errn (a.2.length - 1) : Int) else 0, ctx1, a.2)

/-- `ram_poke` (ezusb.c:456): filter the segment by the current mode, then
write it with bounded retry. -/
def ram_poke (sched : Nat → Int) (errn : Nat → Nat) (ctx : ram_poke_context)
    (tr : List Req) (addr : Nat) (ext : Bool) (data : List Nat) :
    Int × ram_poke_context × List Req :=
  match ctx.mode with
  | .undef => (-EDOM, ctx, tr)
  | .internal_only =>
      if ext then (-EINVAL, ctx, tr)
      else ram_poke_write sched errn ctx tr addr ext data
  | .skip_internal =>
      if !ext then (0, ctx, tr)
      else ram_poke_write sched errn ctx tr addr ext data
  | .skip_external =>
      if ext then (0, ctx, tr)
      else ram_poke_write sched errn ctx tr addr ext data

/-! ### EEPROM erase (ezusb.c:869-887) -/

/-- The chunk loop of `ezusb_erase_eeprom`: `n` remaining 32-byte writes
starting at address `adr`; stop at the first negative status. -/
def erase_loop (sched : Nat → Int) (rq : Nat) : Nat → Nat → List Req → Int × List Req
  | 0, _, tr => (0, tr)
  | n + 1, adr, tr =>
      let w := ezusb_write sched tr rq adr (List.replicate 32 0xff)
      if w.1 < 0 then (w.1, w.2) else erase_loop sched rq n (adr + 32) w.2

/-- `ezusb_erase_eeprom` (ezusb.c:869): overwrite an assumed 8KB EEPROM with
0xff in 32-byte chunks (256 chunks, addresses 0, 32, ..., 8160). -/
def ezusb_erase_eeprom (sched : Nat → Int) (large_eeprom : Bool) : Int × List Req :=
  erase_loop sched (if large_eeprom then RW_EEPROM_LARGE else RW_EEPROM) 256 0 []

/-! ### Specification-side predicates and harnesses used by the theorems -/

/-- A well-formed type-0 data record line: starts with ':', record type field
parses to 0, and the line is long enough for its declared data bytes. -/
abbrev WFDataRecord (l : List Nat) : Prop :=
  l.head? = some 58 ∧ ihexField l 7 2 = 0 ∧ 2 * ihexField l 1 2 + 11 ≤ l.length

/-- The mode/classification combinations under which `ram_poke` reaches its
transport write (ezusb.c:467-496). -/
def ram_mode_writes : ram_mode → Bool → Prop
  | .internal_only, e => e = false
  | .skip_internal, e => e = true
  | .skip_external, e => e = false
  | .undef, _ => False

/-- Feed a list of (address, payload) internal segments to `eeprom_poke` in
order, stopping at the first failure — the call pattern `parse_ihex` produces
during one `ezusb_load_eeprom` invocation. -/
def eeprom_pokes (sched : Nat → Int) :
    eeprom_poke_context × List Req → List (Nat × List Nat) →
      Int × (eeprom_poke_context × List Req)
  | s, [] => (0, s)
  | s, (a, d) :: rest =>
      let pr := eeprom_poke sched s a false d
      if pr.1 < 0 then (pr.1, pr.2) else eeprom_pokes sched pr.2 rest

/-- The requests `eeprom_poke` issues for successive segments, starting at
cursor `c`: a 4-byte header at the cursor and the payload 4 bytes later,
advancing by `4 + length` per segment. -/
def eeprom_frames (rq : Nat) (last : Bool) : Nat → List (Nat × List Nat) → List Req
  | _, [] => []
  | c, (a, d) :: rest =>
      Req.write rq (c % 65536)
        [(d.length >>> 8) ||| (if last then 0x80 else 0),
         d.length % 256, (a >>> 8) % 256, a % 256] ::
      Req.write rq ((c + 4) % 65536) d ::
      eeprom_frames rq last (c + 4 + d.length) rest

/-- The successive cursor values during `eeprom_pokes`, initial cursor
included. -/
def eeprom_cursors : Nat → List (Nat × List Nat) → List Nat
  | c, [] => [c]
  | c, (_, d) :: rest => c :: eeprom_cursors (c + 4 + d.length) rest

/-- The chunk writes `ezusb_erase_eeprom` issues: `n` 32-byte 0xff writes at
consecutive 32-byte-spaced addresses starting at `adr`. -/
def erase_frames (rq : Nat) : Nat → Nat → List Req
  | 0, _ => []
  | n + 1, adr =>
      Req.write rq (adr % 65536) (List.replicate 32 0xff) :: erase_frames rq n (adr + 32)

/-- Trace-extension invariant of one operation step: the trace is only
appended to; every newly issued write other than the very last request
received a non-negative status; and if the step's status is non-negative,
the last one did too.  (A write receiving a negative status therefore ends
the whole trace and fails the operation.) -/
def GoodExt (sched : Nat → Int) (t t' : List Req) (rc : Int) : Prop :=
  (∃ Δ, t' = t ++ Δ) ∧
  (∀ k r, t'.get? k = some r → t.length ≤ k → k + 1 < t'.length →
    isWriteReq r = true → 0 ≤ sched k) ∧
  (0 ≤ rc → ∀ k r, t'.get? k = some r → t.length ≤ k →
    isWriteReq r = true → 0 ≤ sched k)

/-! ### Theorems -/

/-- C7: `fx2_is_external` returns false (internal) exactly when the range is
fully contained in [0x0000, 0x1fff] without extending past 0x2000 or fully
contained in [0xe000, 0xe1ff] without extending past 0xe200, and true in every
other case; `fx2lp_is_external` is identical except the low window is
[0x0000, 0x3fff] with bound 0x4000.  Both are pure Lean functions, hence
deterministic and side-effect free. -/
theorem C7_fx2_fx2lp_classification (addr len : Nat) :
    (fx2_is_external addr len = false ↔
      (addr ≤ 0x1fff ∧ addr + len ≤ 0x2000) ∨
      (0xe000 ≤ addr ∧ addr ≤ 0xe1ff ∧ addr + len ≤ 0xe200)) ∧
    (fx2lp_is_external addr len = false ↔
      (addr ≤ 0x3fff ∧ addr + len ≤ 0x4000) ∨
      (0xe000 ≤ addr ∧ addr ≤ 0xe1ff ∧ addr + len ≤ 0xe200)) := by
  constructor
  · unfold fx2_is_external
    split
    · simp only [decide_eq_false_iff_not, not_lt]
      omega
    · split
      · simp only [decide_eq_false_iff_not, not_lt]
        omega
      · simp only [Bool.true_eq_false, false_iff]
        omega
  · unfold fx2lp_is_external
    split
    · simp only [decide_eq_false_iff_not, not_lt]
      omega
    · split
      · simp only [decide_eq_false_iff_not, not_lt]
        omega
      · simp only [Bool.true_eq_false, false_iff]
        omega

/-- C2 counterexample: the empty input stream ends (EOF) before any EOF
record has been seen, yet `parse_ihex` returns status 0 (success), not a
negative status. -/
theorem C2_counterexample :
    (parse_ihex ([] : List (List Nat)) ([] : List (Nat × Bool × List Nat))
        none recPoke).1 = 0 ∧
    ¬ (parse_ihex ([] : List (List Nat)) ([] : List (Nat × Bool × List Nat))
        none recPoke).1 < 0 := by
  decide

/-- A flush never fails when the sink never fails. -/
theorem ihexFlush_nonneg {σ : Type} (isExt : Option (Nat → Nat → Bool))
    (poke : σ → Nat → Bool → List Nat → Int × σ)
    (hp : ∀ c a e d, 0 ≤ (poke c a e d).1)
    (ctx : σ) (daddr : Nat) (data : List Nat) (ext : Bool) :
    (ihexFlush isExt poke ctx daddr data ext).1 = 0 := by
  simp only [ihexFlush]
  split
  · rfl
  · split
    · next h => exact absurd h (by simp only [not_lt]; exact hp _ _ _ _)
    · rfl

/-- Parsing a stream of well-formed data records with a never-failing sink
succeeds even though the stream ends without an EOF record. -/
theorem parse_go_wf_success {σ : Type} (isExt : Option (Nat → Nat → Bool))
    (poke : σ → Nat → Bool → List Nat → Int × σ)
    (hp : ∀ c a e d, 0 ≤ (poke c a e d).1) :
    ∀ (lines : List (List Nat)) (ctx : σ) (daddr : Nat) (data : List Nat)
      (first ext : Bool), (∀ l ∈ lines, WFDataRecord l) →
      (parse_ihex_go isExt poke lines ctx daddr data first ext).1 = 0 := by
  intro lines
  induction lines with
  | nil =>
      intro ctx daddr data first ext _
      simp only [parse_ihex_go]
      exact ihexFlush_nonneg isExt poke hp ctx daddr data ext
  | cons l rest ih =>
      intro ctx daddr data first ext hwf
      obtain ⟨h58, hty, hlen⟩ := hwf l (by simp)
      have hrest : ∀ l' ∈ rest, WFDataRecord l' := fun l' hl' => hwf l' (by simp [hl'])
      simp only [parse_ihex_go, h58]
      rw [if_neg (by decide), if_neg (by decide)]
      rw [if_neg (show ¬ ihexField l 7 2 = 1 by omega)]
      rw [if_neg (show ¬ ihexField l 7 2 ≠ 0 by omega)]
      rw [if_neg (show ¬ 2 * ihexField l 1 2 + 11 > l.length by omega)]
      generalize (if first = true then ihexField l 3 4 % 65536 else daddr) = daddr1
      split
      · split
        · next hneg =>
            have h0 := ihexFlush_nonneg isExt poke hp ctx daddr1 data ext
            omega
        · exact ih _ _ _ _ _ hrest
      · exact ih _ _ _ _ _ hrest

/-- C2 amended: end of input without an end-marker record is NOT an error:
`parse_ihex` logs a diagnostic, flushes any buffered data, and returns 0
(success) whenever no other error occurs.  In particular, for any stream of
well-formed type-0 data records (so the stream ends at EOF with no EOF record
ever seen) whose sink never fails, `parse_ihex` returns 0, not a negative
FormatError status. -/
theorem C2_amended_eof_without_eof_record_succeeds {σ : Type}
    (lines : List (List Nat)) (ctx : σ) (isExt : Option (Nat → Nat → Bool))
    (poke : σ → Nat → Bool → List Nat → Int × σ)
    (hl : ∀ l ∈ lines, WFDataRecord l)
    (hp : ∀ c a e d, 0 ≤ (poke c a e d).1) :
    (parse_ihex lines ctx isExt poke).1 = 0 :=
  parse_go_wf_success isExt poke hp lines ctx 0 [] true false hl

/-- C2 witness: a concrete one-record stream without an EOF record parses
with status 0. -/
theorem C2_witness :
    (∀ l ∈ [sbytes ":0100100041AE"], WFDataRecord l) ∧
    (parse_ihex [sbytes ":0100100041AE"] ([] : List (Nat × Bool × List Nat))
      none recPoke).1 = 0 :=
  ⟨by decide, C2_amended_eof_without_eof_record_succeeds _ _ _ _ (by decide)
    (fun c a e d => le_refl 0)⟩

/-- C3 counterexample: a zero-length type-0 data record at offset 0x0005
followed by a 1-byte data record at offset 0x0000.  The second record's byte
is appended although its offset (0) differs from bufferStart + bufferLength
(5 + 0), and the resulting segment is reported at the stale address 5, not at
the record's offset 0 — contradicting the claimed "exactly when" condition
and the claimed restart of the buffer at the record's offset. -/
theorem C3_counterexample :
    parse_ihex [sbytes ":00000500FB", sbytes ":01000000AA54", sbytes ":00000001FF"]
        ([] : List (Nat × Bool × List Nat)) none recPoke = (0, [(5, false, [170])]) ∧
    (parse_ihex [sbytes ":00000500FB", sbytes ":01000000AA54", sbytes ":00000001FF"]
        ([] : List (Nat × Bool × List Nat)) none recPoke).2 ≠ [(0, false, [170])] := by
  decide

/-- C3 amended: for a well-formed type-0 data record in mid-stream, the
record's bytes are appended with no sink call exactly when the buffer is
EMPTY or (the record's offset equals bufferStart + bufferLength and
bufferLength + recordLength ≤ 1023); an empty buffer keeps its previous start
address (updated only on the first record line and on flushes), it is not
restarted at the record's offset.  When the buffer is non-empty and the
record is non-contiguous or would overflow, the buffer is first flushed (the
classifier is evaluated once on the buffer's start address and total length,
then the sink invoked once with that segment) and a new buffer starts at the
record's offset with the record's bytes.  In particular, two contiguous
16-byte records at offsets 0x0000 and 0x0010 produce one 32-byte segment. -/
theorem C3_amended_accumulation {σ : Type} (isExt : Option (Nat → Nat → Bool))
    (poke : σ → Nat → Bool → List Nat → Int × σ)
    (l : List Nat) (rest : List (List Nat)) (ctx : σ) (daddr : Nat)
    (data : List Nat) (ext : Bool) (hwf : WFDataRecord l) :
    (data = [] ∨ (ihexField l 3 4 = daddr + data.length ∧
        data.length + ihexField l 1 2 ≤ 1023) →
      parse_ihex_go isExt poke (l :: rest) ctx daddr data false ext =
        parse_ihex_go isExt poke rest ctx daddr
          (data ++ ihexBytes l (ihexField l 1 2)) false ext) ∧
    (data ≠ [] → ihexField l 3 4 ≠ daddr + data.length ∨
        1023 < data.length + ihexField l 1 2 →
      parse_ihex_go isExt poke (l :: rest) ctx daddr data false ext =
        (let fl := ihexFlush isExt poke ctx daddr data ext
         if fl.1 < 0 then (-1, fl.2.1)
         else parse_ihex_go isExt poke rest fl.2.1 (ihexField l 3 4 % 65536)
                (ihexBytes l (ihexField l 1 2)) false fl.2.2)) ∧
    parse_ihex [sbytes ":10000000000102030405060708090A0B0C0D0E0FCC",
        sbytes ":10001000101112131415161718191A1B1C1D1E1FBC", sbytes ":00000001FF"]
        ([] : List (Nat × Bool × List Nat)) none recPoke =
      (0, [(0, false, [0, 1, 2, 3, 4, 5, 6, 7, 8, 9, 10, 11, 12, 13, 14, 15, 16,
        17, 18, 19, 20, 21, 22, 23, 24, 25, 26, 27, 28, 29, 30, 31])]) := by
  obtain ⟨h58, hty, hlen⟩ := hwf
  refine ⟨fun h => ?_, fun hne hor => ?_, by decide⟩
  · simp only [parse_ihex_go, h58]
    rw [if_neg (by decide), if_neg (by decide)]
    rw [if_neg (show ¬ ihexField l 7 2 = 1 by omega)]
    rw [if_neg (show ¬ ihexField l 7 2 ≠ 0 by omega)]
    rw [if_neg (show ¬ 2 * ihexField l 1 2 + 11 > l.length by omega)]
    simp only [if_neg (show ¬ ((false : Bool) = true) by decide)]
    have hnc : ¬ (data ≠ [] ∧ (ihexField l 3 4 ≠ daddr + data.length ∨
        1023 < data.length + ihexField l 1 2)) := by
      rcases h with he | ⟨heq, hle⟩
      · exact fun hc => hc.1 he
      · rintro ⟨-, hne1 | hgt⟩
        · exact hne1 heq
        · omega
    rw [if_neg hnc]
  · simp only [parse_ihex_go, h58]
    rw [if_neg (by decide), if_neg (by decide)]
    rw [if_neg (show ¬ ihexField l 7 2 = 1 by omega)]
    rw [if_neg (show ¬ ihexField l 7 2 ≠ 0 by omega)]
    rw [if_neg (show ¬ 2 * ihexField l 1 2 + 11 > l.length by omega)]
    simp only [if_neg (show ¬ ((false : Bool) = true) by decide)]
    rw [if_pos ⟨hne, hor⟩]

/-- C3 witness: a concrete contiguous 1-byte record at offset 0x0010 arriving
on a 1-byte buffer that starts at 0x000F is appended without a sink call. -/
theorem C3_witness :
    WFDataRecord (sbytes ":01001000BB33") ∧
    parse_ihex_go (none : Option (Nat → Nat → Bool)) recPoke
        [sbytes ":01001000BB33"] [] 15 [170] false false =
      parse_ihex_go none recPoke [] [] 15
        ([170] ++ ihexBytes (sbytes ":01001000BB33")
          (ihexField (sbytes ":01001000BB33") 1 2)) false false :=
  ⟨by decide,
   (C3_amended_accumulation none recPoke (sbytes ":01001000BB33") [] [] 15 [170]
      false (by decide)).1 (Or.inr (by decide))⟩

/-- C4: for every segment, `eeprom_poke` rejects an external segment with
-EINVAL and an oversize (> 1023 bytes) segment with -EDOM, in both cases
issuing no transport request (hence not retried) and leaving the cursor
unchanged; otherwise it writes the 4-byte header
[lengthHigh OR (0x80 if last), lengthLow, addressHigh, addressLow] at the
current cursor, the payload 4 bytes after the cursor, and advances the cursor
by 4 + length (as a 16-bit value). -/
theorem C4_eeprom_poke_framing (sched : Nat → Int) (ctx : eeprom_poke_context)
    (tr : List Req) (addr : Nat) (data : List Nat) :
    (eeprom_poke sched (ctx, tr) addr true data = (-EINVAL, (ctx, tr))) ∧
    (1023 < data.length →
      eeprom_poke sched (ctx, tr) addr false data = (-EDOM, (ctx, tr))) ∧
    (data.length ≤ 1023 → 0 ≤ sched tr.length → 0 ≤ sched (tr.length + 1) →
      eeprom_poke sched (ctx, tr) addr false data =
        ((0 : Int), ({ ctx with ee_addr := (ctx.ee_addr + 4 + data.length) % 65536 },
             tr ++ [Req.write ctx.eeprom_request (ctx.ee_addr % 65536)
                      [(data.length >>> 8) ||| (if ctx.last then 0x80 else 0),
                       data.length % 256, (addr >>> 8) % 256, addr % 256],
                    Req.write ctx.eeprom_request ((ctx.ee_addr + 4) % 65536) data]))) := by
  refine ⟨rfl, fun hgt => ?_, fun hle hs0 hs1 => ?_⟩
  · simp only [eeprom_poke]
    rw [if_neg (by decide), if_pos hgt]
  · simp only [eeprom_poke, ezusb_write]
    rw [if_neg (by decide), if_neg (by omega)]
    rw [if_neg (by omega : ¬ sched tr.length < 0)]
    rw [if_neg (by simp only [List.length_append, List.length_singleton]; omega :
      ¬ sched (tr ++ [Req.write ctx.eeprom_request (ctx.ee_addr % 65536)
        [(data.length >>> 8) ||| (if ctx.last then 0x80 else 0),
         data.length % 256, (addr >>> 8) % 256, addr % 256]]).length < 0)]
    simp [List.append_assoc]

/-- C4 witness: concrete framing of a 1-byte last segment at address 0xe600
from cursor 8 — header written at 8, payload at 12, cursor advanced to 13. -/
theorem C4_witness :
    (1 : Nat) ≤ 1023 ∧ (0 : Int) ≤ 1 ∧
    eeprom_poke (fun _ => 1)
        (({ ee_addr := 8, last := true, eeprom_request := 162 } :
          eeprom_poke_context), []) 0xe600 false [0] =
      ((0 : Int), ({ ee_addr := 13, last := true, eeprom_request := 162 },
        [Req.write 162 8 [128, 1, 230, 0], Req.write 162 12 [0]])) :=
  ⟨by decide, by decide,
   (C4_eeprom_poke_framing (fun _ => 1)
      { ee_addr := 8, last := true, eeprom_request := 162 } [] 0xe600 [0]).2.2
     (by decide) (by decide) (by decide)⟩

/-- C8: an EEPROM load for the AN21 variant with no image path fails with the
ProtocolError status -1 immediately, before any transport request is issued
(the request trace is empty), for every schedule, config byte, addressing
mode and identity override. -/
theorem C8_an21_no_path (sched : Nat → Int) (rdval : Nat → Nat) (config : Nat)
    (large_eeprom : Bool) (ww_config_vid ww_config_pid : Int) :
    ezusb_load_eeprom sched rdval none "an21" config large_eeprom
      ww_config_vid ww_config_pid = (-1, []) := by
  rfl

/-- Mapping over `List.range (m+1)` peels the first index. -/
theorem map_range_succ {α : Type} (f : Nat → α) (m : Nat) :
    (List.range (m + 1)).map f = f 0 :: (List.range m).map (fun i => f (i + 1)) := by
  rw [List.range_succ_eq_map]
  simp [Function.comp]

/-- `erase_frames` in closed form: the i-th chunk is written at `adr + 32*i`. -/
theorem erase_frames_eq (rq : Nat) : ∀ (n adr : Nat),
    erase_frames rq n adr = (List.range n).map
      (fun i => Req.write rq ((adr + 32 * i) % 65536) (List.replicate 32 0xff)) := by
  intro n
  induction n with
  | zero => intro adr; simp [erase_frames]
  | succ m ih =>
      intro adr
      rw [erase_frames, ih (adr + 32), map_range_succ]
      refine congrArg₂ _ (by norm_num) ?_
      refine List.map_congr_left ?_
      intro i _
      refine congrArg (fun a => Req.write rq (a % 65536) (List.replicate 32 0xff)) ?_
      omega

/-- The erase loop with all-successful statuses writes its full chunk list. -/
theorem erase_loop_ok (sched : Nat → Int) (rq : Nat) :
    ∀ (n adr : Nat) (tr : List Req), (∀ k, k < n → 0 ≤ sched (tr.length + k)) →
      erase_loop sched rq n adr tr = (0, tr ++ erase_frames rq n adr) := by
  intro n
  induction n with
  | zero => intro adr tr _; simp [erase_loop, erase_frames]
  | succ m ih =>
      intro adr tr hs
      have h0 : 0 ≤ sched tr.length := by
        have := hs 0 (by omega); simpa using this
      simp only [erase_loop, ezusb_write]
      rw [if_neg (by omega)]
      rw [ih (adr + 32) _ (fun k hk => by
        have h := hs (k + 1) (by omega)
        simp only [List.length_append, List.length_singleton]
        rw [show tr.length + 1 + k = tr.length + (k + 1) from by omega]
        exact h)]
      simp [erase_frames]

/-- The erase loop stops at the first negative status, returning it. -/
theorem erase_loop_fail (sched : Nat → Int) (rq : Nat) :
    ∀ (k n adr : Nat) (tr : List Req), k < n → sched (tr.length + k) < 0 →
      (∀ j, j < k → 0 ≤ sched (tr.length + j)) →
      erase_loop sched rq n adr tr =
        (sched (tr.length + k), tr ++ erase_frames rq (k + 1) adr) := by
  intro k
  induction k with
  | zero =>
      intro n adr tr hn hneg _
      match n, hn with
      | m + 1, _ =>
        simp only [erase_loop, ezusb_write]
        rw [if_pos (by simpa using hneg)]
        simp [erase_frames]
  | succ j ih =>
      intro n adr tr hn hneg hok
      match n, hn with
      | m + 1, hn =>
        have h0 : 0 ≤ sched tr.length := by
          have := hok 0 (by omega); simpa using this
        simp only [erase_loop, ezusb_write]
        rw [if_neg (by omega)]
        have hlen : (tr ++ [Req.write rq (adr % 65536) (List.replicate 32 0xff)]).length
            = tr.length + 1 := by simp
        rw [ih m (adr + 32) _ (by omega)
          (by rw [hlen, show tr.length + 1 + j = tr.length + (j + 1) from by omega]
              exact hneg)
          (fun i hi => by
            rw [hlen, show tr.length + 1 + i = tr.length + (i + 1) from by omega]
            exact hok (i + 1) (by omega))]
        rw [hlen, show tr.length + 1 + j = tr.length + (j + 1) from by omega]
        simp [erase_frames]

/-- C10: `ezusb_erase_eeprom` issues 32-byte writes of fill byte 0xff at
addresses 0, 32, ..., 8160 (exactly the range [0, 8192)) in strictly
increasing order; it returns 0 when all 256 writes succeed, and otherwise
returns the first negative write status without issuing any further
writes. -/
theorem C10_erase_eeprom (sched : Nat → Int) (large_eeprom : Bool) :
    ((∀ k, k < 256 → 0 ≤ sched k) →
      ezusb_erase_eeprom sched large_eeprom =
        (0, (List.range 256).map (fun i =>
          Req.write (if large_eeprom then RW_EEPROM_LARGE else RW_EEPROM)
            (32 * i) (List.replicate 32 0xff)))) ∧
    (∀ k, k < 256 → sched k < 0 → (∀ j, j < k → 0 ≤ sched j) →
      ezusb_erase_eeprom sched large_eeprom =
        (sched k, (List.range (k + 1)).map (fun i =>
          Req.write (if large_eeprom then RW_EEPROM_LARGE else RW_EEPROM)
            (32 * i) (List.replicate 32 0xff)))) := by
  constructor
  · intro hall
    unfold ezusb_erase_eeprom
    rw [erase_loop_ok sched _ 256 0 [] (fun k hk => by simpa using hall k hk)]
    rw [erase_frames_eq]
    simp only [List.nil_append]
    refine congrArg _ ?_
    refine List.map_congr_left ?_
    intro i hi
    have hlt := List.mem_range.mp hi
    rw [show (0 + 32 * i) % 65536 = 32 * i from by omega]
  · intro k hk hneg hok
    unfold ezusb_erase_eeprom
    rw [erase_loop_fail sched _ k 256 0 [] hk (by simpa using hneg)
      (fun j hj => by simpa using hok j hj)]
    rw [erase_frames_eq]
    simp only [List.nil_append, List.length_nil, Nat.zero_add]
    refine congrArg _ ?_
    refine List.map_congr_left ?_
    intro i hi
    have hlt := List.mem_range.mp hi
    rw [show 32 * i % 65536 = 32 * i from by omega]

/-- C10 witness: with an all-success schedule the erase issues exactly the
256 ascending chunk writes and returns 0. -/
theorem C10_witness :
    (∀ k, k < 256 → (0 : Int) ≤ (fun _ => (1 : Int)) k) ∧
    ezusb_erase_eeprom (fun _ => 1) false =
      (0, (List.range 256).map (fun i =>
        Req.write RW_EEPROM (32 * i) (List.replicate 32 0xff))) := by
  refine ⟨fun k _ => by norm_num, ?_⟩
  have h := (C10_erase_eeprom (fun _ => 1) false).1 (fun k _ => by norm_num)
  simpa using h

/-- Behavior of the `ram_poke` retry loop: between 1 and budget+1 identical
write attempts are issued; the final status is the last attempt's; every
non-final attempt failed with errno ETIMEDOUT. -/
theorem ram_write_attempts_spec (sched : Nat → Int) (errn : Nat → Nat)
    (opcode addr : Nat) (data : List Nat) :
    ∀ (budget : Nat) (tr : List Req),
      (∃ n, 1 ≤ n ∧ n ≤ budget + 1 ∧
        (ram_write_attempts sched errn opcode addr data budget tr).2 =
          tr ++ List.replicate n (Req.write opcode (addr % 65536) data)) ∧
      tr.length < (ram_write_attempts sched errn opcode addr data budget tr).2.length ∧
      (ram_write_attempts sched errn opcode addr data budget tr).1 =
        sched ((ram_write_attempts sched errn opcode addr data budget tr).2.length - 1) ∧
      (∀ j, tr.length ≤ j →
        j + 1 < (ram_write_attempts sched errn opcode addr data budget tr).2.length →
        sched j < 0 ∧ errn j = ETIMEDOUT) := by
  intro budget
  induction budget with
  | zero =>
      intro tr
      simp only [ram_write_attempts]
      split
      · refine ⟨⟨1, le_refl 1, by omega, by simp⟩, by simp, by simp, ?_⟩
        intro j h1 h2
        simp only [List.length_append, List.length_singleton] at h2
        omega
      · refine ⟨⟨1, le_refl 1, by omega, by simp⟩, by simp, by simp, ?_⟩
        intro j h1 h2
        simp only [List.length_append, List.length_singleton] at h2
        omega
  | succ b ih =>
      intro tr
      simp only [ram_write_attempts]
      split
      · next hneg =>
          split
          · next hnto =>
              refine ⟨⟨1, le_refl 1, by omega, by simp⟩, by simp, by simp, ?_⟩
              intro j h1 h2
              simp only [List.length_append, List.length_singleton] at h2
              omega
          · next hto =>
              have hto' : errn tr.length = ETIMEDOUT := by
                by_contra hc
                exact hto hc
              obtain ⟨⟨n, hn1, hn2, htr⟩, hlt, hrc, hprev⟩ :=
                ih (tr ++ [Req.write opcode (addr % 65536) data])
              refine ⟨⟨n + 1, by omega, by omega, ?_⟩, ?_, hrc, ?_⟩
              · rw [htr]
                simp [List.replicate_succ]
              · simp only [List.length_append, List.length_singleton] at hlt
                omega
              · intro j h1 h2
                rcases Nat.lt_or_ge j (tr.length + 1) with hj | hj
                · have hje : j = tr.length := by omega
                  subst hje
                  exact ⟨hneg, hto'⟩
                · refine hprev j ?_ h2
                  simp only [List.length_append, List.length_singleton]
                  omega
      · refine ⟨⟨1, le_refl 1, by omega, by simp⟩, by simp, by simp, ?_⟩
        intro j h1 h2
        simp only [List.length_append, List.length_singleton] at h2
        omega

/-- C6: for every segment write performed by `ram_poke` (a mode/classification
combination that reaches the transport), the write is re-attempted at most
RETRY_LIMIT = 5 additional times (so between 1 and 6 identical attempts in
total), and only while each failure has the timeout errno ETIMEDOUT; an
attempt that fails with any other errno is the last attempt and aborts with a
failing (negative) status; a successful attempt is always the last attempt
(never re-issued) and yields status 0. -/
theorem C6_ram_poke_retry (sched : Nat → Int) (errn : Nat → Nat)
    (ctx : ram_poke_context) (tr : List Req) (addr : Nat) (ext : Bool)
    (data : List Nat) (hm : ram_mode_writes ctx.mode ext)
    (hpos : ∀ k, 0 < errn k) :
    (∃ n, 1 ≤ n ∧ n ≤ RETRY_LIMIT + 1 ∧
      (ram_poke sched errn ctx tr addr ext data).2.2 =
        tr ++ List.replicate n
          (Req.write (if ext then RW_MEMORY else RW_INTERNAL) (addr % 65536) data)) ∧
    (∀ j, tr.length ≤ j → j + 1 < (ram_poke sched errn ctx tr addr ext data).2.2.length →
      sched j < 0 ∧ errn j = ETIMEDOUT) ∧
    (∀ j, tr.length ≤ j → j < (ram_poke sched errn ctx tr addr ext data).2.2.length →
      0 ≤ sched j →
      (ram_poke sched errn ctx tr addr ext data).2.2.length = j + 1 ∧
      (ram_poke sched errn ctx tr addr ext data).1 = 0) ∧
    (∀ j, tr.length ≤ j → j < (ram_poke sched errn ctx tr addr ext data).2.2.length →
      sched j < 0 → errn j ≠ ETIMEDOUT →
      (ram_poke sched errn ctx tr addr ext data).2.2.length = j + 1 ∧
      (ram_poke sched errn ctx tr addr ext data).1 < 0) := by
  have hwr : ram_poke sched errn ctx tr addr ext data =
      ram_poke_write sched errn ctx tr addr ext data := by
    rcases h : ctx.mode <;> rw [h] at hm <;> simp only [ram_mode_writes] at hm <;>
      rw [hm] <;> simp [ram_poke, h]
  rw [hwr]
  obtain ⟨⟨n, hn1, hn2, htr⟩, hlt, hrc, hprev⟩ :=
    ram_write_attempts_spec sched errn (if ext then RW_MEMORY else RW_INTERNAL)
      addr data RETRY_LIMIT tr
  have h22 : (ram_poke_write sched errn ctx tr addr ext data).2.2 =
      (ram_write_attempts sched errn (if ext then RW_MEMORY else RW_INTERNAL)
        addr data RETRY_LIMIT tr).2 := rfl
  have h1 : (ram_poke_write sched errn ctx tr addr ext data).1 =
      if (ram_write_attempts sched errn (if ext then RW_MEMORY else RW_INTERNAL)
            addr data RETRY_LIMIT tr).1 < 0
      then -(errn ((ram_write_attempts sched errn (if ext then RW_MEMORY else RW_INTERNAL)
            addr data RETRY_LIMIT tr).2.length - 1) : Int)
      else 0 := rfl
  refine ⟨⟨n, hn1, hn2, by rw [h22, htr]⟩, ?_, ?_, ?_⟩
  · intro j hj1 hj2
    rw [h22] at hj2
    exact hprev j hj1 hj2
  · intro j hj1 hj2 hj3
    rw [h22] at hj2
    have hlast : (ram_write_attempts sched errn (if ext then RW_MEMORY else RW_INTERNAL)
        addr data RETRY_LIMIT tr).2.length = j + 1 := by
      by_contra hc
      have := hprev j hj1 (by omega)
      omega
    refine ⟨by rw [h22, hlast], ?_⟩
    rw [h1, if_neg (by rw [hrc, hlast]; simpa using hj3)]
  · intro j hj1 hj2 hj3 hj4
    rw [h22] at hj2
    have hlast : (ram_write_attempts sched errn (if ext then RW_MEMORY else RW_INTERNAL)
        addr data RETRY_LIMIT tr).2.length = j + 1 := by
      by_contra hc
      have := hprev j hj1 (by omega)
      exact hj4 this.2
    refine ⟨by rw [h22, hlast], ?_⟩
    rw [h1, if_pos (by rw [hrc, hlast]; simpa using hj3)]
    have := hpos ((ram_write_attempts sched errn (if ext then RW_MEMORY else RW_INTERNAL)
        addr data RETRY_LIMIT tr).2.length - 1)
    omega

/-- C6 witness: a concrete internal-mode write whose first attempt times out
and whose second attempt succeeds issues between 1 and 6 attempts. -/
theorem C6_witness :
    ∃ n, 1 ≤ n ∧ n ≤ RETRY_LIMIT + 1 ∧
      (ram_poke (fun k => if k = 0 then -1 else 3) (fun _ => 110)
        { mode := ram_mode.internal_only, total := 0, count := 0 }
        [] 0x100 false [1, 2]).2.2 =
        [] ++ List.replicate n (Req.write RW_INTERNAL (0x100 % 65536) [1, 2]) := by
  have hp : ∀ k : Nat, 0 < (fun _ : Nat => (110 : Nat)) k := fun k => by
    show (0 : Nat) < 110
    decide
  exact (C6_ram_poke_retry (fun k => if k = 0 then -1 else 3) (fun _ => 110)
    { mode := ram_mode.internal_only, total := 0, count := 0 }
    [] 0x100 false [1, 2] rfl hp).1

/-- Successful framing of one internal, in-size segment: header then payload
are appended to the trace and the cursor advances by 4 + length. -/
theorem eeprom_poke_ok (sched : Nat → Int) (ctx : eeprom_poke_context)
    (tr : List Req) (addr : Nat) (data : List Nat)
    (hle : data.length ≤ 1023) (hs0 : 0 ≤ sched tr.length)
    (hs1 : 0 ≤ sched (tr.length + 1)) :
    eeprom_poke sched (ctx, tr) addr false data =
      ((0 : Int), ({ ctx with ee_addr := (ctx.ee_addr + 4 + data.length) % 65536 },
           tr ++ [Req.write ctx.eeprom_request (ctx.ee_addr % 65536)
                    [(data.length >>> 8) ||| (if ctx.last then 0x80 else 0),
                     data.length % 256, (addr >>> 8) % 256, addr % 256],
                  Req.write ctx.eeprom_request ((ctx.ee_addr + 4) % 65536) data])) := by
  simp only [eeprom_poke, ezusb_write]
  rw [if_neg (by decide), if_neg (by omega)]
  rw [if_neg (by omega : ¬ sched tr.length < 0)]
  rw [if_neg (by simp only [List.length_append, List.length_singleton]; omega :
    ¬ sched (tr ++ [Req.write ctx.eeprom_request (ctx.ee_addr % 65536)
      [(data.length >>> 8) ||| (if ctx.last then 0x80 else 0),
       data.length % 256, (addr >>> 8) % 256, addr % 256]]).length < 0)]
  simp [List.append_assoc]

/-- The cursor value at the head of `eeprom_cursors` is the initial cursor. -/
theorem eeprom_cursors_head (c : Nat) (segs : List (Nat × List Nat)) :
    (eeprom_cursors c segs).head? = some c := by
  cases segs <;> rfl

/-- The cursor sequence of successive segments strictly increases. -/
theorem eeprom_cursors_chain (segs : List (Nat × List Nat)) : ∀ (c : Nat),
    List.Chain' (· < ·) (eeprom_cursors c segs) := by
  induction segs with
  | nil => intro c; simp [eeprom_cursors]
  | cons s rest ih =>
      intro c
      obtain ⟨a, d⟩ := s
      rw [eeprom_cursors, List.chain'_cons']
      refine ⟨?_, ih (c + 4 + d.length)⟩
      intro h hh
      rw [eeprom_cursors_head] at hh
      simp only [Option.mem_def, Option.some.injEq] at hh
      omega

/-- C5 amended: starting from cursor `c`, framing N segments of payload
lengths L1..LN through `eeprom_poke` (all internal, all within the 1023-byte
limit, all writes succeeding, total not wrapping the 16-bit cursor) succeeds
and leaves the cursor at exactly `c + Σ(4 + Li)`; each segment's header is
written at the then-current cursor, whose successive values strictly increase
and are never reused; the identity block (written at the fixed offset 1
before any segment, outside `eeprom_poke`) does not contribute to the
cursor. -/
theorem C5_amended_cursor (sched : Nat → Int) (segs : List (Nat × List Nat)) :
    ∀ (ctx : eeprom_poke_context) (tr : List Req),
    (∀ s ∈ segs, (s.2 : List Nat).length ≤ 1023) →
    (∀ k, 0 ≤ sched k) →
    ctx.ee_addr + (segs.map (fun s => 4 + s.2.length)).sum ≤ 65535 →
    (eeprom_pokes sched (ctx, tr) segs).1 = 0 ∧
    (eeprom_pokes sched (ctx, tr) segs).2.1.ee_addr =
      ctx.ee_addr + (segs.map (fun s => 4 + s.2.length)).sum ∧
    (eeprom_pokes sched (ctx, tr) segs).2.1.last = ctx.last ∧
    (eeprom_pokes sched (ctx, tr) segs).2.1.eeprom_request = ctx.eeprom_request ∧
    (eeprom_pokes sched (ctx, tr) segs).2.2 =
      tr ++ eeprom_frames ctx.eeprom_request ctx.last ctx.ee_addr segs ∧
    List.Chain' (· < ·) (eeprom_cursors ctx.ee_addr segs) := by
  induction segs with
  | nil =>
      intro ctx tr _ _ _
      refine ⟨rfl, by simp [eeprom_pokes], rfl, rfl, by simp [eeprom_pokes, eeprom_frames], ?_⟩
      exact eeprom_cursors_chain [] ctx.ee_addr
  | cons s rest ih =>
      intro ctx tr hlen hsched hnw
      obtain ⟨a, d⟩ := s
      have hsum : ((( a, d) :: rest).map (fun s => 4 + s.2.length)).sum =
          (4 + d.length) + (rest.map (fun s => 4 + s.2.length)).sum := by
        simp
      rw [hsum] at hnw
      have hd : d.length ≤ 1023 := hlen (a, d) (by simp)
      have hmod : (ctx.ee_addr + 4 + d.length) % 65536 = ctx.ee_addr + 4 + d.length :=
        Nat.mod_eq_of_lt (by omega)
      simp only [eeprom_pokes]
      rw [eeprom_poke_ok sched ctx tr a d hd (hsched _) (hsched _)]
      rw [if_neg (by omega : ¬ (0 : Int) < 0)]
      have hrec := ih { ctx with ee_addr := (ctx.ee_addr + 4 + d.length) % 65536 }
        (tr ++ [Req.write ctx.eeprom_request (ctx.ee_addr % 65536)
                  [(d.length >>> 8) ||| (if ctx.last then 0x80 else 0),
                   d.length % 256, (a >>> 8) % 256, a % 256],
                Req.write ctx.eeprom_request ((ctx.ee_addr + 4) % 65536) d])
        (fun s hs => hlen s (by simp [hs])) hsched
        (by simp only [hmod]; omega)
      obtain ⟨h1, h2, h3, h4, h5, _⟩ := hrec
      refine ⟨h1, ?_, h3, h4, ?_, ?_⟩
      · rw [h2]
        simp only [hmod, hsum]
        omega
      · rw [h5]
        simp only [hmod, eeprom_frames, List.append_assoc, List.cons_append,
          List.nil_append]
      · exact eeprom_cursors_chain ((a, d) :: rest) ctx.ee_addr

/-- C5 counterexample: two complete fx2 `ezusb_load_eeprom` runs over the same
(empty) image, one writing the 6-byte identity block (default ids) and one
not (vendor id overridden to 0).  In both runs the appended reset frame's
header — the first `eeprom_poke` write — lands at EEPROM address 8, i.e. the
cursor after 0 segments is 8 in both; so no initial offset satisfies the
claimed "initial offset plus Σ(4+Li) plus the identity-block size when one is
written": that would require cursors differing by 6. -/
theorem C5_counterexample :
    (ezusb_load_eeprom (fun _ => 1) (fun _ => 1) (some [sbytes ":00000001FF"])
        "fx2" 0 false (-1) (-1)).2.get? 2 =
      some (Req.write RW_EEPROM 1 [0xB4, 0x04, 0x73, 0x64, 0x05, 0xA0]) ∧
    (ezusb_load_eeprom (fun _ => 1) (fun _ => 1) (some [sbytes ":00000001FF"])
        "fx2" 0 false (-1) (-1)).2.get? 3 =
      some (Req.write RW_EEPROM 8 [0x80, 1, 0xE6, 0]) ∧
    (ezusb_load_eeprom (fun _ => 1) (fun _ => 1) (some [sbytes ":00000001FF"])
        "fx2" 0 false 0 (-1)).2.get? 2 =
      some (Req.write RW_EEPROM 8 [0x80, 1, 0xE6, 0]) ∧
    ezusb_load_eeprom (fun _ => 1) (fun _ => 1) (some [sbytes ":00000001FF"])
        "fx2" 0 false 0 (-1) =
      (0, [Req.read GET_EEPROM_SIZE 0 1, Req.write RW_EEPROM 0 [0],
           Req.write RW_EEPROM 8 [0x80, 1, 0xE6, 0], Req.write RW_EEPROM 12 [0],
           Req.write RW_EEPROM 7 [0], Req.write RW_EEPROM 0 [0xC2]]) ∧
    ¬ ∃ io : Nat, 8 = io + 0 + 6 ∧ 8 = io + 0 := by
  refine ⟨by decide, by decide, by decide, by decide, ?_⟩
  rintro ⟨io, h1, h2⟩
  omega

/-- C5 witness: one 2-byte segment framed from the fx2 initial cursor 8 ends
with the cursor at 8 + (4 + 2) = 14. -/
theorem C5_witness :
    (eeprom_pokes (fun _ => 1)
      (({ ee_addr := 8, last := false, eeprom_request := 162 } :
        eeprom_poke_context), []) [(0, [170, 187])]).2.1.ee_addr =
      ({ ee_addr := 8, last := false, eeprom_request := 162 } :
        eeprom_poke_context).ee_addr +
      ([((0 : Nat), [(170 : Nat), 187])].map (fun s => 4 + s.2.length)).sum := by
  have hs : ∀ k : Nat, (0 : Int) ≤ (fun _ : Nat => (1 : Int)) k := fun k => by
    show (0 : Int) ≤ 1
    decide
  exact (C5_amended_cursor (fun _ => 1) [(0, [170, 187])]
    { ee_addr := 8, last := false, eeprom_request := 162 } [] (by decide) hs
    (by decide)).2.1

/-- An index with a value is inside the list. -/
theorem get?_some_lt {α : Type} {l : List α} {k : Nat} {a : α}
    (h : l.get? k = some a) : k < l.length := by
  by_contra hc
  rw [List.get?_eq_none.mpr (by omega)] at h
  exact Option.noConfusion h

/-- An unchanged trace satisfies the extension invariant for any status. -/
theorem GoodExt_refl (sched : Nat → Int) (t : List Req) (rc : Int) :
    GoodExt sched t t rc := by
  refine ⟨⟨[], by simp⟩, ?_, ?_⟩
  · intro k r hk hge _ _
    have := get?_some_lt hk
    omega
  · intro _ k r hk hge _
    have := get?_some_lt hk
    omega

/-- A single issued write satisfies the extension invariant with its own
status. -/
theorem GoodExt_write (sched : Nat → Int) (t : List Req) (w : Req) :
    GoodExt sched t (t ++ [w]) (sched t.length) := by
  refine ⟨⟨[w], rfl⟩, ?_, ?_⟩
  · intro k r hk hge hlt _
    simp only [List.length_append, List.length_singleton] at hlt
    omega
  · intro hrc k r hk hge _
    have hk' := get?_some_lt hk
    simp only [List.length_append, List.length_singleton] at hk'
    have he : k = t.length := by omega
    rw [he]
    exact hrc

/-- Weakening of the status in the extension invariant. -/
theorem GoodExt_weaken {sched : Nat → Int} {t t' : List Req} {rc rc' : Int}
    (h : GoodExt sched t t' rc) (himp : 0 ≤ rc' → 0 ≤ rc) :
    GoodExt sched t t' rc' :=
  ⟨h.1, h.2.1, fun hrc' => h.2.2 (himp hrc')⟩

/-- Composition of the extension invariant across a successful first step. -/
theorem GoodExt_comp {sched : Nat → Int} {t t1 t2 : List Req} {rc1 rc2 : Int}
    (h1 : GoodExt sched t t1 rc1) (hpos : 0 ≤ rc1) (h2 : GoodExt sched t1 t2 rc2) :
    GoodExt sched t t2 rc2 := by
  obtain ⟨⟨d1, e1⟩, g1, f1⟩ := h1
  obtain ⟨⟨d2, e2⟩, g2, f2⟩ := h2
  have hget : ∀ k, k < t1.length → t2.get? k = t1.get? k := by
    intro k hk
    rw [e2, List.get?_append hk]
  refine ⟨⟨d1 ++ d2, by rw [e2, e1, List.append_assoc]⟩, ?_, ?_⟩
  · intro k r hk hge hlt hw
    rcases Nat.lt_or_ge k t1.length with hk1 | hk1
    · have hr1 : t1.get? k = some r := by rw [← hget k hk1]; exact hk
      rcases Nat.lt_or_ge (k + 1) t1.length with hk2 | hk2
      · exact g1 k r hr1 hge hk2 hw
      · exact f1 hpos k r hr1 hge hw
    · exact g2 k r hk hk1 hlt hw
  · intro hrc k r hk hge hw
    rcases Nat.lt_or_ge k t1.length with hk1 | hk1
    · have hr1 : t1.get? k = some r := by rw [← hget k hk1]; exact hk
      exact f1 hpos k r hr1 hge hw
    · exact f2 hrc k r hk hk1 hw

/-- `eeprom_poke` satisfies the extension invariant. -/
theorem eeprom_poke_good (sched : Nat → Int) (s : eeprom_poke_context × List Req)
    (a : Nat) (e : Bool) (d : List Nat) :
    GoodExt sched s.2 (eeprom_poke sched s a e d).2.2
      (eeprom_poke sched s a e d).1 := by
  obtain ⟨ctx, tr⟩ := s
  simp only [eeprom_poke, ezusb_write]
  split
  · exact GoodExt_refl sched tr _
  · split
    · exact GoodExt_refl sched tr _
    · generalize (if ctx.last = true then (128 : Nat) else 0) = lastbit
      split
      · exact GoodExt_write sched tr _
      · next h1 =>
          split
          · exact GoodExt_comp (GoodExt_write sched tr _) (le_of_not_lt h1)
              (GoodExt_write sched _ _)
          · next h2 =>
              exact GoodExt_weaken
                (GoodExt_comp (GoodExt_write sched tr _) (le_of_not_lt h1)
                  (GoodExt_write sched _ _))
                (fun _ => le_of_not_lt h2)

/-- A flush through `eeprom_poke` satisfies the extension invariant. -/
theorem ihexFlush_ee_good (sched : Nat → Int) (f : Nat → Nat → Bool)
    (s : eeprom_poke_context × List Req) (daddr : Nat) (data : List Nat)
    (ext : Bool) :
    GoodExt sched s.2
      ((ihexFlush (some f) (eeprom_poke sched) s daddr data ext).2.1).2
      (ihexFlush (some f) (eeprom_poke sched) s daddr data ext).1 := by
  simp only [ihexFlush]
  split
  · exact GoodExt_refl sched s.2 _
  · split
    · next h =>
        exact GoodExt_weaken (eeprom_poke_good sched s daddr _ data)
          (fun hc => absurd hc (by norm_num))
    · next h =>
        exact GoodExt_weaken (eeprom_poke_good sched s daddr _ data)
          (fun _ => le_of_not_lt h)

/-- The parse loop, sinking into `eeprom_poke`, satisfies the extension
invariant. -/
theorem parse_ee_good (sched : Nat → Int) (f : Nat → Nat → Bool) :
    ∀ (lines : List (List Nat)) (s : eeprom_poke_context × List Req)
      (daddr : Nat) (data : List Nat) (first ext : Bool),
      GoodExt sched s.2
        (parse_ihex_go (some f) (eeprom_poke sched) lines s daddr data first ext).2.2
        (parse_ihex_go (some f) (eeprom_poke sched) lines s daddr data first ext).1 := by
  intro lines
  induction lines with
  | nil =>
      intro s daddr data first ext
      simp only [parse_ihex_go]
      exact ihexFlush_ee_good sched f s daddr data ext
  | cons l rest ih =>
      intro s daddr data first ext
      simp only [parse_ihex_go]
      generalize (if first = true then ihexField l 3 4 % 65536 else daddr) = daddr1
      split
      · exact ih _ _ _ _ _
      · split
        · exact GoodExt_refl sched s.2 _
        · split
          · exact ihexFlush_ee_good sched f s daddr1 data ext
          · split
            · exact GoodExt_refl sched s.2 _
            · split
              · exact GoodExt_refl sched s.2 _
              · split
                · split
                  · next h =>
                      exact GoodExt_weaken (ihexFlush_ee_good sched f s daddr1 data ext)
                        (fun hc => absurd hc (by norm_num))
                  · next h =>
                      exact GoodExt_comp (ihexFlush_ee_good sched f s daddr1 data ext)
                        (le_of_not_lt h) (ih _ _ _ _ _)
                · exact ih _ _ _ _ _

/-- A hex digit's value is below 16. -/
theorem hexVal_lt {b : Nat} (h : isHexDigitB b = true) : hexVal b < 16 := by
  simp only [isHexDigitB, decide_eq_true_eq] at h
  unfold hexVal
  split
  · omega
  · split <;> omega

/-- Accumulator bound for the hex-prefix value. -/
theorem hexPrefixVal_lt : ∀ (s : List Nat) (acc : Nat),
    hexPrefixVal s acc < 16 ^ s.length * (acc + 1) := by
  intro s
  induction s with
  | nil => intro acc; simp [hexPrefixVal]
  | cons b r ih =>
      intro acc
      simp only [hexPrefixVal]
      split
      · next hb =>
          calc hexPrefixVal r (16 * acc + hexVal b)
              < 16 ^ r.length * (16 * acc + hexVal b + 1) := ih _
            _ ≤ 16 ^ r.length * (16 * (acc + 1)) :=
                Nat.mul_le_mul_left _ (by have := hexVal_lt hb; omega)
            _ = 16 ^ (b :: r).length * (acc + 1) := by
                simp only [List.length_cons, pow_succ]
                ring
      · have hp : 0 < 16 ^ (b :: r).length := pow_pos (by norm_num) _
        calc acc < acc + 1 := by omega
          _ ≤ 16 ^ (b :: r).length * (acc + 1) := Nat.le_mul_of_pos_left _ hp

/-- Skipping spaces does not lengthen a string. -/
theorem skipSpaces_length_le : ∀ s : List Nat, (skipSpaces s).length ≤ s.length := by
  intro s
  induction s with
  | nil => simp [skipSpaces]
  | cons b r ih =>
      simp only [skipSpaces]
      split
      · simpa using Nat.le_succ_of_le ih
      · simp

/-- `strtoul16` is bounded by the string's width. -/
theorem strtoul16_lt (s : List Nat) : strtoul16 s < 16 ^ s.length := by
  have hle := skipSpaces_length_le s
  have hmono : ∀ m n : Nat, m ≤ n → (16 : Nat) ^ m ≤ 16 ^ n := fun m n h =>
    Nat.pow_le_pow_right (by norm_num) h
  simp only [strtoul16]
  split
  · next x r heq =>
      have hr : r.length + 2 ≤ s.length := by
        have h2 : (skipSpaces s).length = r.length + 2 := by rw [heq]; simp
        omega
      split
      · calc hexPrefixVal r 0 < 16 ^ r.length * (0 + 1) := hexPrefixVal_lt r 0
          _ ≤ 16 ^ s.length := by simpa using hmono _ _ (by omega)
      · calc hexPrefixVal (48 :: x :: r) 0 < 16 ^ (48 :: x :: r).length * (0 + 1) :=
              hexPrefixVal_lt _ 0
          _ ≤ 16 ^ s.length := by
              have h3 := hmono ((48 :: x :: r).length) s.length (by simp; omega)
              simpa using h3
  · next s0 heq =>
      calc hexPrefixVal (skipSpaces s) 0 < 16 ^ (skipSpaces s).length * (0 + 1) :=
            hexPrefixVal_lt _ 0
        _ ≤ 16 ^ s.length := by simpa using hmono _ _ hle

/-- A parsed `n`-byte field is below 16^n. -/
theorem ihexField_lt (l : List Nat) (i n : Nat) : ihexField l i n < 16 ^ n := by
  unfold ihexField
  calc strtoul16 ((l.drop i).take n) < 16 ^ ((l.drop i).take n).length :=
        strtoul16_lt _
    _ ≤ 16 ^ n := Nat.pow_le_pow_right (by norm_num) (by simp)

/-- A record's data byte list has exactly the declared length. -/
theorem ihexBytes_length (l : List Nat) (len : Nat) :
    (ihexBytes l len).length = len := by
  simp [ihexBytes]

/-- Bounds on one `eeprom_poke` call from a cursor in [7, 65531 - length]:
every issued request is a write with the context's request code at an address
in [7, 65535], and the cursor does not move past `ee_addr + 4 + length` (nor
below 7), with the request code and last flag preserved. -/
theorem eeprom_poke_bounds (sched : Nat → Int) (ctx : eeprom_poke_context)
    (tr : List Req) (a : Nat) (e : Bool) (d : List Nat)
    (h7 : 7 ≤ ctx.ee_addr) (hb : ctx.ee_addr + 4 + d.length ≤ 65535) :
    (∀ r ∈ (eeprom_poke sched (ctx, tr) a e d).2.2.drop tr.length,
       ∃ a2 d2, r = Req.write ctx.eeprom_request a2 d2 ∧ 7 ≤ a2 ∧ a2 ≤ 65535) ∧
    7 ≤ (eeprom_poke sched (ctx, tr) a e d).2.1.ee_addr ∧
    (eeprom_poke sched (ctx, tr) a e d).2.1.ee_addr ≤ ctx.ee_addr + 4 + d.length ∧
    (eeprom_poke sched (ctx, tr) a e d).2.1.eeprom_request = ctx.eeprom_request ∧
    (eeprom_poke sched (ctx, tr) a e d).2.1.last = ctx.last := by
  have hmodd : (ctx.ee_addr + 4 + d.length) % 65536 = ctx.ee_addr + 4 + d.length :=
    Nat.mod_eq_of_lt (by omega)
  simp only [eeprom_poke, ezusb_write]
  generalize (if ctx.last = true then (128 : Nat) else 0) = lastbit
  split
  · dsimp only
    refine ⟨by simp, by omega, by omega, rfl, rfl⟩
  · split
    · dsimp only
      refine ⟨by simp, by omega, by omega, rfl, rfl⟩
    · split
      · dsimp only
        refine ⟨?_, by omega, by omega, rfl, rfl⟩
        intro r hr
        rw [List.drop_left] at hr
        simp only [List.mem_singleton] at hr
        exact ⟨ctx.ee_addr % 65536, _, by rw [hr],
          by rw [Nat.mod_eq_of_lt (by omega)]; omega,
          by rw [Nat.mod_eq_of_lt (by omega)]; omega⟩
      · split
        · dsimp only
          refine ⟨?_, by omega, by omega, rfl, rfl⟩
          intro r hr
          rw [List.append_assoc, List.drop_left] at hr
          simp only [List.cons_append, List.nil_append, List.mem_cons,
            List.not_mem_nil, or_false] at hr
          rcases hr with hr | hr
          · exact ⟨ctx.ee_addr % 65536, _, by rw [hr],
              by rw [Nat.mod_eq_of_lt (by omega)]; omega,
              by rw [Nat.mod_eq_of_lt (by omega)]; omega⟩
          · exact ⟨(ctx.ee_addr + 4) % 65536, d, by rw [hr],
              by rw [Nat.mod_eq_of_lt (by omega)]; omega,
              by rw [Nat.mod_eq_of_lt (by omega)]; omega⟩
        · dsimp only
          refine ⟨?_, ?_, ?_, rfl, rfl⟩
          · intro r hr
            rw [List.append_assoc, List.drop_left] at hr
            simp only [List.cons_append, List.nil_append, List.mem_cons,
              List.not_mem_nil, or_false] at hr
            rcases hr with hr | hr
            · exact ⟨ctx.ee_addr % 65536, _, by rw [hr],
                by rw [Nat.mod_eq_of_lt (by omega)]; omega,
                by rw [Nat.mod_eq_of_lt (by omega)]; omega⟩
            · exact ⟨(ctx.ee_addr + 4) % 65536, d, by rw [hr],
                by rw [Nat.mod_eq_of_lt (by omega)]; omega,
                by rw [Nat.mod_eq_of_lt (by omega)]; omega⟩
          · rw [hmodd]; omega
          · rw [hmodd]

/-- The same bounds for one flush step. -/
theorem ihexFlush_ee_bounds (sched : Nat → Int) (f : Nat → Nat → Bool)
    (ctx : eeprom_poke_context) (tr : List Req) (daddr : Nat) (data : List Nat)
    (ext : Bool) (h7 : 7 ≤ ctx.ee_addr)
    (hb : ctx.ee_addr + 4 + data.length ≤ 65535) :
    (∀ r ∈ ((ihexFlush (some f) (eeprom_poke sched) (ctx, tr) daddr data ext).2.1).2.drop tr.length,
       ∃ a2 d2, r = Req.write ctx.eeprom_request a2 d2 ∧ 7 ≤ a2 ∧ a2 ≤ 65535) ∧
    7 ≤ ((ihexFlush (some f) (eeprom_poke sched) (ctx, tr) daddr data ext).2.1).1.ee_addr ∧
    ((ihexFlush (some f) (eeprom_poke sched) (ctx, tr) daddr data ext).2.1).1.ee_addr ≤
      ctx.ee_addr + 4 + data.length ∧
    ((ihexFlush (some f) (eeprom_poke sched) (ctx, tr) daddr data ext).2.1).1.eeprom_request =
      ctx.eeprom_request ∧
    ((ihexFlush (some f) (eeprom_poke sched) (ctx, tr) daddr data ext).2.1).1.last =
      ctx.last := by
  simp only [ihexFlush]
  split
  · dsimp only
    refine ⟨by simp, by omega, by omega, rfl, rfl⟩
  · split
    · exact eeprom_poke_bounds sched ctx tr daddr _ data h7 hb
    · exact eeprom_poke_bounds sched ctx tr daddr _ data h7 hb

/-- Bounds on the whole parse loop with the `eeprom_poke` sink: from a cursor
at least 7 with enough headroom (each record adds at most 255 payload bytes
and 4 header bytes per flush), every issued request is a write with the
context's request code at an address in [7, 65535], and the final cursor stays
within `ee_addr + 4 + bufferedLength + 259 * lines` (and at least 7), with
request code and last flag preserved. -/
theorem parse_ee_bounds (sched : Nat → Int) (f : Nat → Nat → Bool) :
    ∀ (lines : List (List Nat)) (ctx : eeprom_poke_context) (tr : List Req)
      (daddr : Nat) (data : List Nat) (first ext : Bool),
      7 ≤ ctx.ee_addr → data.length ≤ 1023 →
      ctx.ee_addr + 4 + data.length + 259 * lines.length ≤ 65530 →
      (∀ r ∈ (parse_ihex_go (some f) (eeprom_poke sched) lines (ctx, tr) daddr data first ext).2.2.drop tr.length,
         ∃ a2 d2, r = Req.write ctx.eeprom_request a2 d2 ∧ 7 ≤ a2 ∧ a2 ≤ 65535) ∧
      7 ≤ (parse_ihex_go (some f) (eeprom_poke sched) lines (ctx, tr) daddr data first ext).2.1.ee_addr ∧
      (parse_ihex_go (some f) (eeprom_poke sched) lines (ctx, tr) daddr data first ext).2.1.ee_addr ≤
        ctx.ee_addr + 4 + data.length + 259 * lines.length ∧
      (parse_ihex_go (some f) (eeprom_poke sched) lines (ctx, tr) daddr data first ext).2.1.eeprom_request =
        ctx.eeprom_request ∧
      (parse_ihex_go (some f) (eeprom_poke sched) lines (ctx, tr) daddr data first ext).2.1.last =
        ctx.last := by
  intro lines
  induction lines with
  | nil =>
      intro ctx tr daddr data first ext h7 hdl hb
      simp only [parse_ihex_go]
      obtain ⟨m, h7', hle', hrq', hl'⟩ :=
        ihexFlush_ee_bounds sched f ctx tr daddr data ext h7 (by omega)
      exact ⟨m, h7', by simpa using by omega, hrq', hl'⟩
  | cons l rest ih =>
      intro ctx tr daddr data first ext h7 hdl hb
      have hlen255 : ihexField l 1 2 ≤ 255 := by
        have h := ihexField_lt l 1 2
        norm_num at h
        omega
      have hbLen : (ihexBytes l (ihexField l 1 2)).length = ihexField l 1 2 :=
        ihexBytes_length l _
      have hbcons : (l :: rest).length = rest.length + 1 := by simp
      rw [hbcons] at hb
      simp only [parse_ihex_go]
      generalize (if first = true then ihexField l 3 4 % 65536 else daddr) = daddr1
      split
      · -- comment line
        obtain ⟨m, h7', hle', hrq', hl'⟩ :=
          ih ctx tr daddr data first ext h7 hdl (by omega)
        exact ⟨m, h7', by simp only [hbcons]; omega, hrq', hl'⟩
      · split
        · -- not a record: (-2, ctx, tr)
          dsimp only
          exact ⟨by simp, by omega, by omega, rfl, rfl⟩
        · split
          · -- EOF record: final flush
            obtain ⟨m, h7', hle', hrq', hl'⟩ :=
              ihexFlush_ee_bounds sched f ctx tr daddr1 data ext h7 (by omega)
            exact ⟨m, h7', by simp only [hbcons]; omega, hrq', hl'⟩
          · split
            · -- unsupported type
              dsimp only
              exact ⟨by simp, by omega, by omega, rfl, rfl⟩
            · split
              · -- record too short
                dsimp only
                exact ⟨by simp, by omega, by omega, rfl, rfl⟩
              · split
                · -- flush before appending
                  obtain ⟨mF, h7F, hleF, hrqF, hlF⟩ :=
                    ihexFlush_ee_bounds sched f ctx tr daddr1 data ext h7 (by omega)
                  split
                  · -- flush failed: (-1, flush state)
                    exact ⟨mF, h7F, by simp only [hbcons]; omega, hrqF, hlF⟩
                  · -- continue from the flushed state
                    obtain ⟨mR, h7R, hleR, hrqR, hlR⟩ :=
                      ih (ihexFlush (some f) (eeprom_poke sched) (ctx, tr) daddr1 data ext).2.1.1
                        (ihexFlush (some f) (eeprom_poke sched) (ctx, tr) daddr1 data ext).2.1.2
                        (ihexField l 3 4 % 65536) (ihexBytes l (ihexField l 1 2)) false
                        (ihexFlush (some f) (eeprom_poke sched) (ctx, tr) daddr1 data ext).2.2
                        h7F (by omega) (by omega)
                    have hpe : ((ihexFlush (some f) (eeprom_poke sched) (ctx, tr) daddr1 data ext).2.1.1,
                        (ihexFlush (some f) (eeprom_poke sched) (ctx, tr) daddr1 data ext).2.1.2) =
                        (ihexFlush (some f) (eeprom_poke sched) (ctx, tr) daddr1 data ext).2.1 := rfl
                    rw [hpe] at mR h7R hleR hrqR hlR
                    obtain ⟨d1, e1⟩ :=
                      (ihexFlush_ee_good sched f (ctx, tr) daddr1 data ext).1
                    obtain ⟨d2, e2⟩ :=
                      (parse_ee_good sched f rest
                        (ihexFlush (some f) (eeprom_poke sched) (ctx, tr) daddr1 data ext).2.1
                        (ihexField l 3 4 % 65536) (ihexBytes l (ihexField l 1 2)) false
                        (ihexFlush (some f) (eeprom_poke sched) (ctx, tr) daddr1 data ext).2.2).1
                    refine ⟨?_, h7R, by simp only [hbcons]; omega, by rw [hrqR, hrqF],
                      by rw [hlR, hlF]⟩
                    intro r hr
                    rw [e2, e1, List.append_assoc, List.drop_left] at hr
                    rcases List.mem_append.mp hr with hm | hm
                    · refine mF r ?_
                      rw [e1, List.drop_left]
                      exact hm
                    · have hm2 : r ∈ (parse_ihex_go (some f) (eeprom_poke sched) rest
                          (ihexFlush (some f) (eeprom_poke sched) (ctx, tr) daddr1 data ext).2.1
                          (ihexField l 3 4 % 65536) (ihexBytes l (ihexField l 1 2)) false
                          (ihexFlush (some f) (eeprom_poke sched) (ctx, tr) daddr1 data ext).2.2).2.2.drop
                            (ihexFlush (some f) (eeprom_poke sched) (ctx, tr) daddr1 data ext).2.1.2.length := by
                        rw [e2, List.drop_left]
                        exact hm
                      obtain ⟨a2, d2x, hr2, h72, hlt2⟩ := mR r hm2
                      exact ⟨a2, d2x, by rw [hr2, hrqF], h72, hlt2⟩
                · -- append to the buffer
                  have hc : data.length + ihexField l 1 2 ≤ 1023 := by
                    next hnc =>
                      rcases Decidable.em (data = []) with hde | hde
                      · rw [hde]
                        simp only [List.length_nil, Nat.zero_add]
                        omega
                      · rcases Decidable.em (1023 < data.length + ihexField l 1 2) with hgt | hle2
                        · exact absurd ⟨hde, Or.inr hgt⟩ hnc
                        · omega
                  obtain ⟨m, h7', hle', hrq', hl'⟩ :=
                    ih ctx tr daddr1 (data ++ ihexBytes l (ihexField l 1 2)) false ext h7
                      (by simp only [List.length_append, hbLen]; omega)
                      (by simp only [List.length_append, hbLen]; omega)
                  exact ⟨m, h7', by simp only [List.length_append, hbLen, hbcons] at hle' ⊢; omega,
                    hrq', hl'⟩

/-- One `eeprom_poke` call either leaves state and trace unchanged or appends
requests starting with a header write at the current cursor. -/
theorem eeprom_poke_head (sched : Nat → Int) (ctx : eeprom_poke_context)
    (tr : List Req) (a : Nat) (e : Bool) (d : List Nat) :
    ((eeprom_poke sched (ctx, tr) a e d).2.2 = tr ∧
      (eeprom_poke sched (ctx, tr) a e d).2.1 = ctx) ∨
    (∃ h4 rest2, (eeprom_poke sched (ctx, tr) a e d).2.2 =
       tr ++ Req.write ctx.eeprom_request (ctx.ee_addr % 65536) h4 :: rest2) := by
  simp only [eeprom_poke, ezusb_write]
  generalize (if ctx.last = true then (128 : Nat) else 0) = lastbit
  split
  · exact Or.inl ⟨rfl, rfl⟩
  · split
    · exact Or.inl ⟨rfl, rfl⟩
    · split
      · exact Or.inr ⟨[d.length >>> 8 ||| lastbit, d.length % 256, a >>> 8 % 256, a % 256],
          [], rfl⟩
      · split
        · refine Or.inr ⟨[d.length >>> 8 ||| lastbit, d.length % 256, a >>> 8 % 256, a % 256],
            [Req.write ctx.eeprom_request ((ctx.ee_addr + 4) % 65536) d], ?_⟩
          dsimp only
          rw [List.append_assoc]
          rfl
        · refine Or.inr ⟨[d.length >>> 8 ||| lastbit, d.length % 256, a >>> 8 % 256, a % 256],
            [Req.write ctx.eeprom_request ((ctx.ee_addr + 4) % 65536) d], ?_⟩
          dsimp only
          rw [List.append_assoc]
          rfl

/-- One flush either leaves state and trace unchanged or appends requests
starting with a header write at the current cursor. -/
theorem ihexFlush_ee_head (sched : Nat → Int) (f : Nat → Nat → Bool)
    (ctx : eeprom_poke_context) (tr : List Req) (daddr : Nat) (data : List Nat)
    (ext : Bool) :
    (((ihexFlush (some f) (eeprom_poke sched) (ctx, tr) daddr data ext).2.1).2 = tr ∧
      ((ihexFlush (some f) (eeprom_poke sched) (ctx, tr) daddr data ext).2.1).1 = ctx) ∨
    (∃ h4 rest2, ((ihexFlush (some f) (eeprom_poke sched) (ctx, tr) daddr data ext).2.1).2 =
       tr ++ Req.write ctx.eeprom_request (ctx.ee_addr % 65536) h4 :: rest2) := by
  simp only [ihexFlush]
  split
  · exact Or.inl ⟨rfl, rfl⟩
  · split
    · exact eeprom_poke_head sched ctx tr daddr _ data
    · exact eeprom_poke_head sched ctx tr daddr _ data

/-- The parse loop with the `eeprom_poke` sink either leaves state and trace
unchanged or appends requests starting with a segment-header write at the
entry cursor. -/
theorem parse_ee_head (sched : Nat → Int) (f : Nat → Nat → Bool) :
    ∀ (lines : List (List Nat)) (ctx : eeprom_poke_context) (tr : List Req)
      (daddr : Nat) (data : List Nat) (first ext : Bool),
      ((parse_ihex_go (some f) (eeprom_poke sched) lines (ctx, tr) daddr data first ext).2.2 = tr ∧
        (parse_ihex_go (some f) (eeprom_poke sched) lines (ctx, tr) daddr data first ext).2.1 = ctx) ∨
      (∃ h4 rest2, (parse_ihex_go (some f) (eeprom_poke sched) lines (ctx, tr) daddr data first ext).2.2 =
         tr ++ Req.write ctx.eeprom_request (ctx.ee_addr % 65536) h4 :: rest2) := by
  intro lines
  induction lines with
  | nil =>
      intro ctx tr daddr data first ext
      simp only [parse_ihex_go]
      exact ihexFlush_ee_head sched f ctx tr daddr data ext
  | cons l rest ih =>
      intro ctx tr daddr data first ext
      simp only [parse_ihex_go]
      generalize (if first = true then ihexField l 3 4 % 65536 else daddr) = daddr1
      split
      · exact ih ctx tr daddr data first ext
      · split
        · exact Or.inl ⟨rfl, rfl⟩
        · split
          · exact ihexFlush_ee_head sched f ctx tr daddr1 data ext
          · split
            · exact Or.inl ⟨rfl, rfl⟩
            · split
              · exact Or.inl ⟨rfl, rfl⟩
              · split
                · split
                  · exact ihexFlush_ee_head sched f ctx tr daddr1 data ext
                  · rcases ihexFlush_ee_head sched f ctx tr daddr1 data ext with
                      ⟨et, ec⟩ | ⟨h4, rest2, et⟩
                    · have hpe : (ihexFlush (some f) (eeprom_poke sched) (ctx, tr) daddr1 data ext).2.1 =
                          (ctx, tr) := Prod.ext_iff.mpr ⟨ec, et⟩
                      rw [hpe]
                      exact ih ctx tr (ihexField l 3 4 % 65536)
                        (ihexBytes l (ihexField l 1 2)) false _
                    · obtain ⟨d2, e2⟩ :=
                        (parse_ee_good sched f rest
                          (ihexFlush (some f) (eeprom_poke sched) (ctx, tr) daddr1 data ext).2.1
                          (ihexField l 3 4 % 65536) (ihexBytes l (ihexField l 1 2)) false
                          (ihexFlush (some f) (eeprom_poke sched) (ctx, tr) daddr1 data ext).2.2).1
                      refine Or.inr ⟨h4, rest2 ++ d2, ?_⟩
                      rw [e2, et]
                      simp [List.append_assoc]
                · exact ih ctx tr daddr1 (data ++ ihexBytes l (ihexField l 1 2)) false ext

/-- Indexing past a prefix lands in the suffix. -/
theorem get?_append_sub {α : Type} {t d : List α} {k : Nat} (hk : t.length ≤ k) :
    (t ++ d).get? k = d.get? (k - t.length) :=
  List.get?_append_right hk

/-- Writes at different addresses differ. -/
theorem write_addr_ne {op1 a1 op2 a2 : Nat} {d1 d2 : List Nat} (h : a1 ≠ a2) :
    Req.write op1 a1 d1 ≠ Req.write op2 a2 d2 := by
  intro he
  injection he with h1 h2 h3
  exact h h2

/-- The last element of a list extended by a singleton. -/
theorem getLast?_append_singleton {α : Type} (l : List α) (a : α) :
    (l ++ [a]).getLast? = some a := by
  rw [List.getLast?_append_cons]
  rfl

/-- Behavior of the EEPROM load trailer: the trace is extended according to
the invariant; any write it issues at offset 0 can only succeed if the whole
trailer succeeds; on success the last request is the bootable type-byte
write; and its first request is never a write to offset 1. -/
theorem trailer_spec (sched : Nat → Int) (ty : String) (fb rq cfg : Nat)
    (tr : List Req) :
    GoodExt sched tr (ezusb_load_eeprom_trailer sched ty fb rq cfg tr).2
      (ezusb_load_eeprom_trailer sched ty fb rq cfg tr).1 ∧
    (∀ k op d2, (ezusb_load_eeprom_trailer sched ty fb rq cfg tr).2.get? k =
        some (Req.write op 0 d2) → tr.length ≤ k → 0 ≤ sched k →
      (ezusb_load_eeprom_trailer sched ty fb rq cfg tr).1 = 0) ∧
    (0 ≤ (ezusb_load_eeprom_trailer sched ty fb rq cfg tr).1 →
      (ezusb_load_eeprom_trailer sched ty fb rq cfg tr).2.getLast? =
        some (Req.write rq 0 [fb])) ∧
    (∀ r, (ezusb_load_eeprom_trailer sched ty fb rq cfg tr).2.get? tr.length =
        some r → ∀ op dd, r ≠ Req.write op 1 dd) := by
  simp only [ezusb_load_eeprom_trailer, ezusb_write,
    show (7 : Nat) % 65536 = 7 from rfl, show (8 : Nat) % 65536 = 8 from rfl,
    show (0 : Nat) % 65536 = 0 from rfl]
  split
  · -- config byte written (w7)
    split
    · -- config write failed
      next h3 =>
        dsimp only at h3 ⊢
        refine ⟨GoodExt_write sched tr _, ?_, ?_, ?_⟩
        · intro k op d2 hget hk _
          rw [get?_append_sub hk] at hget
          have hlt := get?_some_lt hget
          simp only [List.length_singleton] at hlt
          rw [show k - tr.length = 0 from by omega] at hget
          exact absurd (Option.some.inj hget) (write_addr_ne (by decide))
        · intro h0
          exact absurd h0 (not_le.mpr h3)
        · intro r hget op dd
          rw [get?_append_sub (le_refl tr.length), Nat.sub_self] at hget
          rw [← Option.some.inj hget]
          exact write_addr_ne (by decide)
    · next h3 =>
        dsimp only at h3 ⊢
        split
        · -- FX reserved byte written (w8)
          split
          · -- reserved write failed
            next h4 =>
              dsimp only at h4 ⊢
              refine ⟨GoodExt_comp (GoodExt_write sched tr _) (le_of_not_lt h3)
                  (GoodExt_write sched _ _), ?_, ?_, ?_⟩
              · intro k op d2 hget hk _
                rw [List.append_assoc, get?_append_sub hk] at hget
                have hlt := get?_some_lt hget
                simp only [List.cons_append, List.nil_append, List.length_cons,
                  List.length_nil] at hlt
                have h01 : k - tr.length = 0 ∨ k - tr.length = 1 := by omega
                rcases h01 with h0 | h0 <;> rw [h0] at hget
                · exact absurd (Option.some.inj hget) (write_addr_ne (by decide))
                · exact absurd (Option.some.inj hget) (write_addr_ne (by decide))
              · intro h0
                exact absurd h0 (not_le.mpr h4)
              · intro r hget op dd
                rw [List.append_assoc, get?_append_sub (le_refl tr.length),
                  Nat.sub_self] at hget
                rw [← Option.some.inj hget]
                exact write_addr_ne (by decide)
          · next h4 =>
              dsimp only at h4 ⊢
              split
              · -- type byte write failed (w7, w8, w0)
                next h5 =>
                  dsimp only at h5 ⊢
                  refine ⟨GoodExt_comp (GoodExt_comp (GoodExt_write sched tr _)
                      (le_of_not_lt h3) (GoodExt_write sched _ _))
                      (le_of_not_lt h4) (GoodExt_write sched _ _), ?_, ?_, ?_⟩
                  · intro k op d2 hget hk hs
                    rw [List.append_assoc, List.append_assoc,
                      get?_append_sub hk] at hget
                    have hlt := get?_some_lt hget
                    simp only [List.cons_append, List.nil_append, List.length_cons,
                      List.length_nil] at hlt
                    have h012 : k - tr.length = 0 ∨ k - tr.length = 1 ∨
                        k - tr.length = 2 := by omega
                    rcases h012 with h0 | h0 | h0 <;> rw [h0] at hget
                    · exact absurd (Option.some.inj hget) (write_addr_ne (by decide))
                    · exact absurd (Option.some.inj hget) (write_addr_ne (by decide))
                    · rw [show ((tr ++ [Req.write rq 7 [cfg]]) ++
                          [Req.write rq 8 [0]]).length = tr.length + 2 from by
                        simp only [List.length_append, List.length_singleton]] at h5
                      rw [show k = tr.length + 2 from by omega] at hs
                      omega
                  · intro h0
                    exact absurd h0 (not_le.mpr h5)
                  · intro r hget op dd
                    rw [List.append_assoc, List.append_assoc,
                      get?_append_sub (le_refl tr.length), Nat.sub_self] at hget
                    rw [← Option.some.inj hget]
                    exact write_addr_ne (by decide)
              · -- full success (w7, w8, w0)
                next h5 =>
                  dsimp only at h5 ⊢
                  refine ⟨GoodExt_weaken (GoodExt_comp (GoodExt_comp
                      (GoodExt_write sched tr _) (le_of_not_lt h3)
                      (GoodExt_write sched _ _))
                      (le_of_not_lt h4) (GoodExt_write sched _ _))
                      (fun _ => le_of_not_lt h5), ?_, ?_, ?_⟩
                  · intro k op d2 _ _ _
                    rfl
                  · intro _
                    exact getLast?_append_singleton _ _
                  · intro r hget op dd
                    rw [List.append_assoc, List.append_assoc,
                      get?_append_sub (le_refl tr.length), Nat.sub_self] at hget
                    rw [← Option.some.inj hget]
                    exact write_addr_ne (by decide)
        · -- no reserved byte: straight to the type byte (w7, w0)
          dsimp only
          rw [if_neg (by norm_num : ¬ (0 : Int) < 0)]
          split
          · next h5 =>
              dsimp only at h5 ⊢
              refine ⟨GoodExt_comp (GoodExt_write sched tr _) (le_of_not_lt h3)
                  (GoodExt_write sched _ _), ?_, ?_, ?_⟩
              · intro k op d2 hget hk hs
                rw [List.append_assoc, get?_append_sub hk] at hget
                have hlt := get?_some_lt hget
                simp only [List.cons_append, List.nil_append, List.length_cons,
                  List.length_nil] at hlt
                have h01 : k - tr.length = 0 ∨ k - tr.length = 1 := by omega
                rcases h01 with h0 | h0 <;> rw [h0] at hget
                · exact absurd (Option.some.inj hget) (write_addr_ne (by decide))
                · rw [show (tr ++ [Req.write rq 7 [cfg]]).length = tr.length + 1
                      from by simp] at h5
                  rw [show k = tr.length + 1 from by omega] at hs
                  omega
              · intro h0
                exact absurd h0 (not_le.mpr h5)
              · intro r hget op dd
                rw [List.append_assoc, get?_append_sub (le_refl tr.length),
                  Nat.sub_self] at hget
                rw [← Option.some.inj hget]
                exact write_addr_ne (by decide)
          · next h5 =>
              dsimp only at h5 ⊢
              refine ⟨GoodExt_weaken (GoodExt_comp (GoodExt_write sched tr _)
                  (le_of_not_lt h3) (GoodExt_write sched _ _))
                  (fun _ => le_of_not_lt h5), ?_, ?_, ?_⟩
              · intro k op d2 _ _ _
                rfl
              · intro _
                exact getLast?_append_singleton _ _
              · intro r hget op dd
                rw [List.append_assoc, get?_append_sub (le_refl tr.length),
                  Nat.sub_self] at hget
                rw [← Option.some.inj hget]
                exact write_addr_ne (by decide)
  · -- an21: no config byte
    next h3 =>
      have hty : ty = "an21" := not_ne_iff.mp h3
      rw [if_neg (by norm_num : ¬ (0 : Int) < 0)]
      dsimp only
      rw [if_neg (by rw [hty]; decide : ¬ ty = "fx")]
      rw [if_neg (by norm_num : ¬ (0 : Int) < 0)]
      dsimp only
      split
      · next h5 =>
          dsimp only at h5 ⊢
          refine ⟨GoodExt_write sched tr _, ?_, ?_, ?_⟩
          · intro k op d2 hget hk hs
            rw [get?_append_sub hk] at hget
            have hlt := get?_some_lt hget
            simp only [List.length_singleton] at hlt
            rw [show k = tr.length from by omega] at hs
            omega
          · intro h0
            exact absurd h0 (not_le.mpr h5)
          · intro r hget op dd
            rw [get?_append_sub (le_refl tr.length), Nat.sub_self] at hget
            rw [← Option.some.inj hget]
            exact write_addr_ne (by decide)
      · next h5 =>
          dsimp only at h5 ⊢
          refine ⟨GoodExt_weaken (GoodExt_write sched tr _)
              (fun _ => le_of_not_lt h5), ?_, ?_, ?_⟩
          · intro k op d2 _ _ _
            rfl
          · intro _
            exact getLast?_append_singleton _ _
          · intro r hget op dd
            rw [get?_append_sub (le_refl tr.length), Nat.sub_self] at hget
            rw [← Option.some.inj hget]
            exact write_addr_ne (by decide)

/-- An element fetched at index `k ≥ n` lies in `l.drop n`. -/
theorem mem_drop_of_get? {α : Type} {l : List α} {n k : Nat} {r : α}
    (h : l.get? k = some r) (hn : n ≤ k) : r ∈ l.drop n := by
  have h2 : (l.drop n).get? (k - n) = some r := by
    rw [List.get?_drop, show n + (k - n) = k from by omega]
    exact h
  exact List.get?_mem h2

/-- Behavior of the image-scan part of the EEPROM load followed by the reset
frame and the trailer: trace extension invariant; a successful write to
offset 0 in the new region forces overall success; on success the trace ends
with the type-byte write; the first appended request never targets offset 1. -/
theorem tail_spec (sched : Nat → Int) (path : Option (List (List Nat)))
    (ty : String) (isExt : Nat → Nat → Bool) (fb cpucs ee0 rq cfg : Nat)
    (tr : List Req) (h7 : 7 ≤ ee0) (h9 : ee0 ≤ 9)
    (hsize : ∀ lines, path = some lines → lines.length ≤ 250) :
    GoodExt sched tr
      (ezusb_load_eeprom_tail sched path ty isExt fb cpucs ee0 rq cfg tr).2
      (ezusb_load_eeprom_tail sched path ty isExt fb cpucs ee0 rq cfg tr).1 ∧
    (∀ k op d2,
      (ezusb_load_eeprom_tail sched path ty isExt fb cpucs ee0 rq cfg tr).2.get? k =
        some (Req.write op 0 d2) → tr.length ≤ k → 0 ≤ sched k →
      (ezusb_load_eeprom_tail sched path ty isExt fb cpucs ee0 rq cfg tr).1 = 0) ∧
    (0 ≤ (ezusb_load_eeprom_tail sched path ty isExt fb cpucs ee0 rq cfg tr).1 →
      (ezusb_load_eeprom_tail sched path ty isExt fb cpucs ee0 rq cfg tr).2.getLast? =
        some (Req.write rq 0 [fb])) ∧
    (∀ r,
      (ezusb_load_eeprom_tail sched path ty isExt fb cpucs ee0 rq cfg tr).2.get? tr.length =
        some r → ∀ op dd, r ≠ Req.write op 1 dd) := by
  cases path with
  | none =>
      simp only [ezusb_load_eeprom_tail]
      exact trailer_spec sched ty fb rq cfg tr
  | some lines =>
      have hlen := hsize lines rfl
      simp only [ezusb_load_eeprom_tail, parse_ihex]
      have hPG := parse_ee_good sched isExt lines
        (({ ee_addr := ee0, last := false, eeprom_request := rq } :
          eeprom_poke_context), tr) 0 [] true false
      have hPB := parse_ee_bounds sched isExt lines
        { ee_addr := ee0, last := false, eeprom_request := rq } tr 0 [] true false
        h7 (by simp)
        (by
          show ee0 + 4 + List.length ([] : List Nat) + 259 * lines.length ≤ 65530
          simp only [List.length_nil]
          omega)
      have hPH := parse_ee_head sched isExt lines
        { ee_addr := ee0, last := false, eeprom_request := rq } tr 0 [] true false
      obtain ⟨hPBm, hPB7, hPBle, hPBrq, hPBlast⟩ := hPB
      dsimp only at hPG hPBm hPB7 hPBle hPBrq hPBlast hPH
      simp only [List.length_nil] at hPBle
      obtain ⟨Δp, hΔp⟩ := hPG.1
      split
      · -- the image scan itself failed
        next hPf =>
          dsimp only
          refine ⟨hPG, ?_, ?_, ?_⟩
          · intro k op d2 hget hk hs
            have hmem := mem_drop_of_get? hget hk
            obtain ⟨a2, d2x, heq, h7a, -⟩ := hPBm _ hmem
            injection heq with e1 e2 e3
            omega
          · intro h0
            exact absurd h0 (not_le.mpr hPf)
          · intro r hget op dd
            rcases hPH with ⟨et, -⟩ | ⟨h4, rest2, et⟩
            · rw [et] at hget
              have := get?_some_lt hget
              omega
            · rw [et, get?_append_sub (le_refl tr.length), Nat.sub_self] at hget
              rw [← Option.some.inj hget]
              refine write_addr_ne ?_
              rw [Nat.mod_eq_of_lt (by omega)]
              omega
      · -- image scan succeeded: reset frame, then trailer
        next hPok =>
          have hRG := eeprom_poke_good sched
            ({ (parse_ihex_go (some isExt) (eeprom_poke sched) lines
                ({ ee_addr := ee0, last := false, eeprom_request := rq }, tr)
                0 [] true false).2.1 with last := true },
             (parse_ihex_go (some isExt) (eeprom_poke sched) lines
                ({ ee_addr := ee0, last := false, eeprom_request := rq }, tr)
                0 [] true false).2.2) cpucs false [0]
          have hRB := eeprom_poke_bounds sched
            { (parse_ihex_go (some isExt) (eeprom_poke sched) lines
                ({ ee_addr := ee0, last := false, eeprom_request := rq }, tr)
                0 [] true false).2.1 with last := true }
            (parse_ihex_go (some isExt) (eeprom_poke sched) lines
                ({ ee_addr := ee0, last := false, eeprom_request := rq }, tr)
                0 [] true false).2.2 cpucs false [0]
            hPB7
            (by
              dsimp only
              simp only [List.length_singleton]
              omega)
          have hRhead := eeprom_poke_head sched
            { (parse_ihex_go (some isExt) (eeprom_poke sched) lines
                ({ ee_addr := ee0, last := false, eeprom_request := rq }, tr)
                0 [] true false).2.1 with last := true }
            (parse_ihex_go (some isExt) (eeprom_poke sched) lines
                ({ ee_addr := ee0, last := false, eeprom_request := rq }, tr)
                0 [] true false).2.2 cpucs false [0]
          obtain ⟨hRBm, hRB7, hRBle, hRBrq, hRBlast⟩ := hRB
          dsimp only at hRG hRBm hRB7 hRBle hRBrq hRBlast hRhead
          obtain ⟨Δr, hΔr⟩ := hRG.1
          split
          · -- writing the reset frame failed
            next hRf =>
              dsimp only
              refine ⟨GoodExt_comp hPG (le_of_not_lt hPok) hRG, ?_, ?_, ?_⟩
              · intro k op d2 hget hk hs
                rcases Nat.lt_or_ge k (parse_ihex_go (some isExt) (eeprom_poke sched)
                    lines ({ ee_addr := ee0, last := false, eeprom_request := rq }, tr)
                    0 [] true false).2.2.length with hc | hc
                · rw [hΔr, List.get?_append hc] at hget
                  have hmem := mem_drop_of_get? hget hk
                  obtain ⟨a2, d2x, heq, h7a, -⟩ := hPBm _ hmem
                  injection heq with e1 e2 e3
                  omega
                · rw [hΔr, get?_append_sub hc] at hget
                  have hmem := List.get?_mem hget
                  rw [hΔr, List.drop_left] at hRBm
                  obtain ⟨a2, d2x, heq, h7a, -⟩ := hRBm _ hmem
                  injection heq with e1 e2 e3
                  omega
              · intro h0
                exact absurd h0 (not_le.mpr hRf)
              · intro r hget op dd
                rcases hPH with ⟨etP, ecP⟩ | ⟨h4, rest2, etP⟩
                · rcases hRhead with ⟨etR, -⟩ | ⟨h4, rest2, etR⟩
                  · rw [etR, etP] at hget
                    have := get?_some_lt hget
                    omega
                  · rw [etR, etP, get?_append_sub (le_refl tr.length),
                      Nat.sub_self] at hget
                    rw [← Option.some.inj hget]
                    refine write_addr_ne ?_
                    rw [ecP]
                    dsimp only
                    rw [Nat.mod_eq_of_lt (by omega)]
                    omega
                · rw [hΔr, etP, List.append_assoc,
                    get?_append_sub (le_refl tr.length), Nat.sub_self] at hget
                  rw [← Option.some.inj hget]
                  refine write_addr_ne ?_
                  rw [Nat.mod_eq_of_lt (by omega)]
                  omega
          · -- reset frame written: run the trailer
            next hRok =>
              obtain ⟨TG, TZ, TL, TH⟩ := trailer_spec sched ty fb rq cfg
                (eeprom_poke sched
                  ({ (parse_ihex_go (some isExt) (eeprom_poke sched) lines
                      ({ ee_addr := ee0, last := false, eeprom_request := rq }, tr)
                      0 [] true false).2.1 with last := true },
                   (parse_ihex_go (some isExt) (eeprom_poke sched) lines
                      ({ ee_addr := ee0, last := false, eeprom_request := rq }, tr)
                      0 [] true false).2.2) cpucs false [0]).2.2
              obtain ⟨Δt, hΔt⟩ := TG.1
              refine ⟨GoodExt_comp (GoodExt_comp hPG (le_of_not_lt hPok) hRG)
                (le_of_not_lt hRok) TG, ?_, ?_, ?_⟩
              · intro k op d2 hget hk hs
                rcases Nat.lt_or_ge k (eeprom_poke sched
                    ({ (parse_ihex_go (some isExt) (eeprom_poke sched) lines
                        ({ ee_addr := ee0, last := false, eeprom_request := rq }, tr)
                        0 [] true false).2.1 with last := true },
                     (parse_ihex_go (some isExt) (eeprom_poke sched) lines
                        ({ ee_addr := ee0, last := false, eeprom_request := rq }, tr)
                        0 [] true false).2.2) cpucs false [0]).2.2.length with hc | hc
                · rw [hΔt, List.get?_append hc] at hget
                  rcases Nat.lt_or_ge k (parse_ihex_go (some isExt) (eeprom_poke sched)
                      lines ({ ee_addr := ee0, last := false, eeprom_request := rq }, tr)
                      0 [] true false).2.2.length with hc2 | hc2
                  · rw [hΔr, List.get?_append hc2] at hget
                    have hmem := mem_drop_of_get? hget hk
                    obtain ⟨a2, d2x, heq, h7a, -⟩ := hPBm _ hmem
                    injection heq with e1 e2 e3
                    omega
                  · rw [hΔr, get?_append_sub hc2] at hget
                    have hmem := List.get?_mem hget
                    rw [hΔr, List.drop_left] at hRBm
                    obtain ⟨a2, d2x, heq, h7a, -⟩ := hRBm _ hmem
                    injection heq with e1 e2 e3
                    omega
                · exact TZ k op d2 hget hc hs
              · exact TL
              · intro r hget op dd
                rcases hPH with ⟨etP, ecP⟩ | ⟨h4, rest2, etP⟩
                · rcases hRhead with ⟨etR, -⟩ | ⟨h4, rest2, etR⟩
                  · have hidx : (eeprom_poke sched
                        ({ (parse_ihex_go (some isExt) (eeprom_poke sched) lines
                            ({ ee_addr := ee0, last := false, eeprom_request := rq }, tr)
                            0 [] true false).2.1 with last := true },
                         (parse_ihex_go (some isExt) (eeprom_poke sched) lines
                            ({ ee_addr := ee0, last := false, eeprom_request := rq }, tr)
                            0 [] true false).2.2) cpucs false [0]).2.2.length = tr.length := by
                      rw [etR, etP]
                    rw [← hidx] at hget
                    exact TH r hget op dd
                  · rw [hΔt, etR, etP, List.append_assoc,
                      get?_append_sub (le_refl tr.length), Nat.sub_self] at hget
                    rw [← Option.some.inj hget]
                    refine write_addr_ne ?_
                    rw [ecP]
                    dsimp only
                    rw [Nat.mod_eq_of_lt (by omega)]
                    omega
                · rw [hΔt, hΔr, etP, List.append_assoc, List.append_assoc,
                    get?_append_sub (le_refl tr.length), Nat.sub_self] at hget
                  rw [← Option.some.inj hget]
                  refine write_addr_ne ?_
                  rw [Nat.mod_eq_of_lt (by omega)]
                  omega

/-- Behavior of the common EEPROM-load body: the trace extends `tr` starting
with the unbootable-marker write; the extension invariant holds; on success
the trace ends with the type-byte write; a successful write of anything but
`[0]` to offset 0 forces overall success; and the request right after the
marker is the identity block exactly when both resolved ids are nonzero. -/
theorem body_spec (sched : Nat → Int) (path : Option (List (List Nat)))
    (ty : String) (isExt : Nat → Nat → Bool) (fb cpucs ee0 rq cfg vid0 pid0 : Nat)
    (wv wp : Int) (tr : List Req) (h7 : 7 ≤ ee0) (h9 : ee0 ≤ 9)
    (hsize : ∀ lines, path = some lines → lines.length ≤ 250) :
    GoodExt sched tr
      (ezusb_load_eeprom_body sched path ty isExt fb cpucs ee0 rq cfg vid0 pid0 wv wp tr).2
      (ezusb_load_eeprom_body sched path ty isExt fb cpucs ee0 rq cfg vid0 pid0 wv wp tr).1 ∧
    (∃ Δ, (ezusb_load_eeprom_body sched path ty isExt fb cpucs ee0 rq cfg vid0 pid0 wv wp tr).2 =
      tr ++ Req.write rq 0 [0] :: Δ) ∧
    (0 ≤ (ezusb_load_eeprom_body sched path ty isExt fb cpucs ee0 rq cfg vid0 pid0 wv wp tr).1 →
      (ezusb_load_eeprom_body sched path ty isExt fb cpucs ee0 rq cfg vid0 pid0 wv wp tr).2.getLast? =
        some (Req.write rq 0 [fb])) ∧
    (∀ k op d2,
      (ezusb_load_eeprom_body sched path ty isExt fb cpucs ee0 rq cfg vid0 pid0 wv wp tr).2.get? k =
        some (Req.write op 0 d2) → tr.length ≤ k → 0 ≤ sched k →
      d2 = [0] ∨
      (ezusb_load_eeprom_body sched path ty isExt fb cpucs ee0 rq cfg vid0 pid0 wv wp tr).1 = 0) ∧
    (resolved_ww wv vid0 ≠ 0 → resolved_ww wp pid0 ≠ 0 → ¬ sched tr.length < 0 →
      (ezusb_load_eeprom_body sched path ty isExt fb cpucs ee0 rq cfg vid0 pid0 wv wp tr).2.get?
        (tr.length + 1) =
      some (Req.write rq 1
        [resolved_ww wv vid0 &&& 0xff, (resolved_ww wv vid0 >>> 8) &&& 0xff,
         resolved_ww wp pid0 &&& 0xff, (resolved_ww wp pid0 >>> 8) &&& 0xff, 0x05, 0xa0])) ∧
    ((resolved_ww wv vid0 = 0 ∨ resolved_ww wp pid0 = 0) → ∀ op dd,
      (ezusb_load_eeprom_body sched path ty isExt fb cpucs ee0 rq cfg vid0 pid0 wv wp tr).2.get?
        (tr.length + 1) ≠ some (Req.write op 1 dd)) := by
  simp only [ezusb_load_eeprom_body, ezusb_write, resolved_ww,
    show (0 : Nat) % 65536 = 0 from rfl, show (1 : Nat) % 65536 = 1 from rfl]
  split
  · -- the unbootable-marker write failed
    next hmf =>
      dsimp only
      refine ⟨GoodExt_write sched tr _, ⟨[], rfl⟩, ?_, ?_, ?_, ?_⟩
      · intro h0
        exact absurd h0 (not_le.mpr hmf)
      · intro k op d2 hget hk hs
        rw [get?_append_sub hk] at hget
        have hlt := get?_some_lt hget
        simp only [List.length_singleton] at hlt
        rw [show k - tr.length = 0 from by omega] at hget
        have he := Option.some.inj hget
        injection he with e1 e2 e3
        exact Or.inl e3.symm
      · intro hv hp hm
        exact absurd hm (not_not.mpr hmf)
      · intro hz op dd hget
        rw [get?_append_sub (by omega : tr.length ≤ tr.length + 1),
          show tr.length + 1 - tr.length = 1 from by omega] at hget
        exact Option.noConfusion hget
  · next hmk =>
      generalize (if 0 ≤ wv then wv.toNat % 65536 else vid0) = V
      generalize (if 0 ≤ wp then wp.toNat % 65536 else pid0) = W
      split
      · -- identity block present
        next hc =>
          split
          · -- identity write failed
            next hif =>
              refine ⟨GoodExt_comp (GoodExt_write sched tr _) (le_of_not_lt hmk)
                  (GoodExt_write sched _ _),
                ⟨[Req.write rq 1
                    [V &&& 0xff, V >>> 8 &&& 0xff, W &&& 0xff, W >>> 8 &&& 0xff,
                     0x05, 0xa0]], by simp⟩, ?_, ?_, ?_, ?_⟩
              · intro h0
                exact absurd h0 (not_le.mpr hif)
              · intro k op d2 hget hk hs
                rw [List.append_assoc, get?_append_sub hk] at hget
                have hlt := get?_some_lt hget
                simp only [List.cons_append, List.nil_append, List.length_cons,
                  List.length_nil] at hlt
                have h01 : k - tr.length = 0 ∨ k - tr.length = 1 := by omega
                rcases h01 with h0 | h0 <;> rw [h0] at hget <;>
                  have he := Option.some.inj hget
                · injection he with e1 e2 e3
                  exact Or.inl e3.symm
                · injection he with e1 e2 e3
                  exact absurd e2.symm (by decide)
              · intro hv hp hm
                rw [List.append_assoc,
                  get?_append_sub (by omega : tr.length ≤ tr.length + 1),
                  show tr.length + 1 - tr.length = 1 from by omega]
                rfl
              · intro hz op dd hget
                rcases hz with h | h
                · exact absurd h hc.1
                · exact absurd h hc.2
          · -- identity write succeeded: continue with the tail
            next hiok =>
              obtain ⟨SG, SZ, SL, SH⟩ := tail_spec sched path ty isExt fb cpucs
                ee0 rq cfg
                (tr ++ [Req.write rq 0 [0]] ++
                  [Req.write rq 1
                    [V &&& 0xff, V >>> 8 &&& 0xff, W &&& 0xff, W >>> 8 &&& 0xff,
                     0x05, 0xa0]])
                h7 h9 hsize
              obtain ⟨Δs, hΔs⟩ := SG.1
              refine ⟨GoodExt_comp (GoodExt_comp (GoodExt_write sched tr _)
                  (le_of_not_lt hmk) (GoodExt_write sched _ _))
                  (le_of_not_lt hiok) SG,
                ⟨[Req.write rq 1
                    [V &&& 0xff, V >>> 8 &&& 0xff, W &&& 0xff, W >>> 8 &&& 0xff,
                     0x05, 0xa0]] ++ Δs, by rw [hΔs]; simp⟩, SL, ?_, ?_, ?_⟩
              · intro k op d2 hget hk hs
                rcases Nat.lt_or_ge k
                    (tr ++ [Req.write rq 0 [0]] ++
                      [Req.write rq 1
                        [V &&& 0xff, V >>> 8 &&& 0xff, W &&& 0xff,
                         W >>> 8 &&& 0xff, 0x05, 0xa0]]).length with hcl | hcl
                · rw [hΔs, List.get?_append hcl, List.append_assoc,
                    get?_append_sub hk] at hget
                  simp only [List.length_append, List.length_singleton] at hcl
                  have h01 : k - tr.length = 0 ∨ k - tr.length = 1 := by omega
                  rcases h01 with h0 | h0 <;> rw [h0] at hget <;>
                    have he := Option.some.inj hget
                  · injection he with e1 e2 e3
                    exact Or.inl e3.symm
                  · injection he with e1 e2 e3
                    exact absurd e2.symm (by decide)
                · exact Or.inr (SZ k op d2 hget hcl hs)
              · intro hv hp hm
                rw [hΔs, List.get?_append
                    (by simp only [List.length_append, List.length_singleton]; omega),
                  List.append_assoc,
                  get?_append_sub (by omega : tr.length ≤ tr.length + 1),
                  show tr.length + 1 - tr.length = 1 from by omega]
                rfl
              · intro hz op dd hget
                rcases hz with h | h
                · exact absurd h hc.1
                · exact absurd h hc.2
      · -- no identity block
        next hc =>
          rw [if_neg (by norm_num : ¬ (0 : Int) < 0)]
          obtain ⟨SG, SZ, SL, SH⟩ := tail_spec sched path ty isExt fb cpucs
            ee0 rq cfg (tr ++ [Req.write rq 0 [0]]) h7 h9 hsize
          obtain ⟨Δs, hΔs⟩ := SG.1
          refine ⟨GoodExt_comp (GoodExt_write sched tr _) (le_of_not_lt hmk) SG,
            ⟨Δs, by rw [hΔs]; simp⟩, SL, ?_, ?_, ?_⟩
          · intro k op d2 hget hk hs
            rcases Nat.lt_or_ge k (tr ++ [Req.write rq 0 [0]]).length with hcl | hcl
            · rw [hΔs, List.get?_append hcl, get?_append_sub hk] at hget
              simp only [List.length_append, List.length_singleton] at hcl
              rw [show k - tr.length = 0 from by omega] at hget
              have he := Option.some.inj hget
              injection he with e1 e2 e3
              exact Or.inl e3.symm
            · exact Or.inr (SZ k op d2 hget hcl hs)
          · intro hv hp hm
            exact absurd ⟨hv, hp⟩ hc
          · intro hz op dd hget
            have hidx : (tr ++ [Req.write rq 0 [0]]).length = tr.length + 1 := by
              simp
            rw [← hidx] at hget
            exact absurd rfl (SH _ hget op dd)

/-- Appending a read request preserves the extension invariant for any
status: the invariant only constrains write requests. -/
theorem GoodExt_read (sched : Nat → Int) (t : List Req) (o a l : Nat) (rc : Int) :
    GoodExt sched t (t ++ [Req.read o a l]) rc := by
  refine ⟨⟨_, rfl⟩, ?_, ?_⟩
  · intro k r hk hge hlt hw
    simp only [List.length_append, List.length_singleton] at hlt
    omega
  · intro _ k r hk hge hw
    have hk' := get?_some_lt hk
    simp only [List.length_append, List.length_singleton] at hk'
    rw [get?_append_sub hge, show k - t.length = 0 from by omega] at hk
    rw [← Option.some.inj hk] at hw
    exact Bool.noConfusion hw

/-- Behavior of the per-variant dispatch: for a supported type the trace is
either unchanged (missing-path rejection) or extends `tr` with the
unbootable marker first; the extension invariant holds; success ends with a
nonzero type byte at offset 0; a successful non-marker write to offset 0
forces success; and the request after the marker is the identity block
exactly when both resolved ids are nonzero. -/
theorem dispatch_spec (sched : Nat → Int) (path : Option (List (List Nat)))
    (ty : String) (config rq : Nat) (wv wp : Int) (tr : List Req)
    (hty : ty = "fx2" ∨ ty = "fx2lp" ∨ ty = "fx" ∨ ty = "an21")
    (hsize : ∀ lines, path = some lines → lines.length ≤ 250) :
    GoodExt sched tr
      (ezusb_load_eeprom_dispatch sched path ty config rq wv wp tr).2
      (ezusb_load_eeprom_dispatch sched path ty config rq wv wp tr).1 ∧
    ((ezusb_load_eeprom_dispatch sched path ty config rq wv wp tr).2 = tr ∨
      ∃ Δ, (ezusb_load_eeprom_dispatch sched path ty config rq wv wp tr).2 =
        tr ++ Req.write rq 0 [0] :: Δ) ∧
    (0 ≤ (ezusb_load_eeprom_dispatch sched path ty config rq wv wp tr).1 →
      ∃ fb, fb ≠ 0 ∧
        (ezusb_load_eeprom_dispatch sched path ty config rq wv wp tr).2.getLast? =
          some (Req.write rq 0 [fb])) ∧
    (∀ k op d2,
      (ezusb_load_eeprom_dispatch sched path ty config rq wv wp tr).2.get? k =
        some (Req.write op 0 d2) → tr.length ≤ k → 0 ≤ sched k →
      d2 = [0] ∨ (ezusb_load_eeprom_dispatch sched path ty config rq wv wp tr).1 = 0) ∧
    (∀ lines, path = some lines →
      resolved_ww wv (eeprom_default_vid ty) ≠ 0 →
      resolved_ww wp (eeprom_default_pid ty) ≠ 0 →
      ¬ sched tr.length < 0 →
      (ezusb_load_eeprom_dispatch sched path ty config rq wv wp tr).2.get?
        (tr.length + 1) =
      some (Req.write rq 1
        [resolved_ww wv (eeprom_default_vid ty) &&& 0xff,
         resolved_ww wv (eeprom_default_vid ty) >>> 8 &&& 0xff,
         resolved_ww wp (eeprom_default_pid ty) &&& 0xff,
         resolved_ww wp (eeprom_default_pid ty) >>> 8 &&& 0xff, 0x05, 0xa0])) ∧
    (∀ lines, path = some lines →
      (resolved_ww wv (eeprom_default_vid ty) = 0 ∨
       resolved_ww wp (eeprom_default_pid ty) = 0) →
      ∀ op dd,
        (ezusb_load_eeprom_dispatch sched path ty config rq wv wp tr).2.get?
          (tr.length + 1) ≠ some (Req.write op 1 dd)) := by
  rcases hty with h | h | h | h <;> subst h
  · -- fx2
    simp only [ezusb_load_eeprom_dispatch, if_pos rfl]
    obtain ⟨BG, BM, BL, BZ, BIp, BIn⟩ := body_spec sched path "fx2" fx2_is_external
      (if path.isSome then 0xC2 else 0xC0) 0xe600 8 rq (config &&& 0x4f)
      0x04B4 0x6473 wv wp tr (by omega) (by omega) hsize
    refine ⟨BG, Or.inr BM, fun h0 => ⟨_, by split <;> decide, BL h0⟩, BZ, ?_, ?_⟩
    · intro lines hp hv hw hm
      exact BIp hv hw hm
    · intro lines hp hz op dd
      exact BIn hz op dd
  · -- fx2lp
    simp only [ezusb_load_eeprom_dispatch, if_neg (by decide : ¬ "fx2lp" = "fx2"),
      if_pos rfl]
    obtain ⟨BG, BM, BL, BZ, BIp, BIn⟩ := body_spec sched path "fx2lp" fx2lp_is_external
      (if path.isSome then 0xC2 else 0xC0) 0xe600 8 rq (config &&& 0x4f)
      0x04B4 0x8613 wv wp tr (by omega) (by omega) hsize
    refine ⟨BG, Or.inr BM, fun h0 => ⟨_, by split <;> decide, BL h0⟩, BZ, ?_, ?_⟩
    · intro lines hp hv hw hm
      exact BIp hv hw hm
    · intro lines hp hz op dd
      exact BIn hz op dd
  · -- fx
    simp only [ezusb_load_eeprom_dispatch, if_neg (by decide : ¬ "fx" = "fx2"),
      if_neg (by decide : ¬ "fx" = "fx2lp"), if_pos rfl, if_true]
    cases path with
    | none =>
        rw [if_pos (show (none : Option (List (List Nat))).isNone = true from rfl)]
        refine ⟨GoodExt_refl sched tr _, Or.inl rfl, ?_, ?_, ?_, ?_⟩
        · intro h0
          exact absurd h0 (by norm_num)
        · intro k op d2 hget hk hs
          exact absurd (get?_some_lt hget) (by dsimp only; omega)
        · intro lines hp
          exact absurd hp (by simp)
        · intro lines hp
          exact absurd hp (by simp)
    | some lines2 =>
        rw [if_neg (by simp)]
        obtain ⟨BG, BM, BL, BZ, BIp, BIn⟩ := body_spec sched (some lines2) "fx"
          fx_is_external 0xB6 0x7f92 9 rq (config &&& 0x07) 0 0 wv wp tr
          (by omega) (by omega) hsize
        refine ⟨BG, Or.inr BM, fun h0 => ⟨0xB6, by decide, BL h0⟩, BZ, ?_, ?_⟩
        · intro lines hp hv hw hm
          exact BIp hv hw hm
        · intro lines hp hz op dd
          exact BIn hz op dd
  · -- an21
    simp only [ezusb_load_eeprom_dispatch, if_neg (by decide : ¬ "an21" = "fx2"),
      if_neg (by decide : ¬ "an21" = "fx2lp"), if_neg (by decide : ¬ "an21" = "fx"),
      if_pos rfl, if_true]
    cases path with
    | none =>
        rw [if_pos (show (none : Option (List (List Nat))).isNone = true from rfl)]
        refine ⟨GoodExt_refl sched tr _, Or.inl rfl, ?_, ?_, ?_, ?_⟩
        · intro h0
          exact absurd h0 (by norm_num)
        · intro k op d2 hget hk hs
          exact absurd (get?_some_lt hget) (by dsimp only; omega)
        · intro lines hp
          exact absurd hp (by simp)
        · intro lines hp
          exact absurd hp (by simp)
    | some lines2 =>
        rw [if_neg (by simp)]
        obtain ⟨BG, BM, BL, BZ, BIp, BIn⟩ := body_spec sched (some lines2) "an21"
          fx_is_external 0xB2 0x7f92 7 rq 0 0 0 wv wp tr (by omega) (by omega) hsize
        refine ⟨BG, Or.inr BM, fun h0 => ⟨0xB2, by decide, BL h0⟩, BZ, ?_, ?_⟩
        · intro lines hp hv hw hm
          exact BIp hv hw hm
        · intro lines hp hz op dd
          exact BIn hz op dd

/-- C1 (amended): boot-safety ordering of `ezusb_load_eeprom` for a
supported variant and an image of at most 250 record lines — each record
frames at most 4 + 255 bytes, so the 16-bit EEPROM cursor stays below 2^16
and cannot wrap back onto the type byte (`C1_counterexample` shows the
original unbounded claim fails once it does): (i) a
request that fails is the last request issued — no later write is performed
after a negative status, (ii) if any write is issued at all, the first write
of the run is the single unbootable marker byte `0` at EEPROM offset 0,
(iii) a successful run ends with the very last request writing the nonzero
bootable type byte at offset 0, and (iv) in an aborted run every offset-0
write that succeeded wrote `[0]`, so the device is left unbootable. -/
theorem C1_load_eeprom_boot_safety (sched : Nat → Int) (rdval : Nat → Nat)
    (path : Option (List (List Nat))) (ty : String) (config : Nat)
    (large : Bool) (wv wp : Int)
    (hty : ty = "fx2" ∨ ty = "fx2lp" ∨ ty = "fx" ∨ ty = "an21")
    (hsize : ∀ lines, path = some lines → lines.length ≤ 250) :
    GoodExt sched []
      (ezusb_load_eeprom sched rdval path ty config large wv wp).2
      (ezusb_load_eeprom sched rdval path ty config large wv wp).1 ∧
    (∀ k r, (ezusb_load_eeprom sched rdval path ty config large wv wp).2.get? k =
        some r → isWriteReq r = true →
      ∃ pre Δ, (ezusb_load_eeprom sched rdval path ty config large wv wp).2 =
        pre ++ Req.write (if large then RW_EEPROM_LARGE else RW_EEPROM) 0 [0] :: Δ ∧
        ∀ r2 ∈ pre, isWriteReq r2 = false) ∧
    (0 ≤ (ezusb_load_eeprom sched rdval path ty config large wv wp).1 →
      ∃ fb, fb ≠ 0 ∧
        (ezusb_load_eeprom sched rdval path ty config large wv wp).2.getLast? =
          some (Req.write (if large then RW_EEPROM_LARGE else RW_EEPROM) 0 [fb])) ∧
    ((ezusb_load_eeprom sched rdval path ty config large wv wp).1 < 0 →
      ∀ k op d2,
        (ezusb_load_eeprom sched rdval path ty config large wv wp).2.get? k =
          some (Req.write op 0 d2) → 0 ≤ sched k → d2 = [0]) := by
  cases path with
  | none =>
      simp only [ezusb_load_eeprom]
      obtain ⟨DG, DM, DL, DZ, -, -⟩ := dispatch_spec sched none ty config
        (if large then RW_EEPROM_LARGE else RW_EEPROM) wv wp [] hty
        (fun l h => nomatch h)
      refine ⟨DG, ?_, DL, ?_⟩
      · intro k r hget hw
        rcases DM with he | ⟨Δ, he⟩
        · rw [he] at hget
          have hl := get?_some_lt hget
          simp at hl
        · exact ⟨[], Δ, he, by simp⟩
      · intro hneg k op d2 hget hs
        rcases DZ k op d2 hget (Nat.zero_le k) hs with h | h
        · exact h
        · rw [h] at hneg
          exact absurd hneg (by norm_num)
  | some lines =>
      simp only [ezusb_load_eeprom, ezusb_read]
      split
      · next hpf =>
          dsimp only
          refine ⟨GoodExt_read sched [] _ _ _ _, ?_, ?_, ?_⟩
          · intro k r hget hw
            rw [List.nil_append] at hget
            have hlt := get?_some_lt hget
            simp only [List.length_singleton] at hlt
            rw [show k = 0 from by omega] at hget
            rw [← Option.some.inj hget] at hw
            exact absurd hw (by decide)
          · intro h0
            exact absurd h0 (by norm_num)
          · intro hneg k op d2 hget hs
            rw [List.nil_append] at hget
            have hlt := get?_some_lt hget
            simp only [List.length_singleton] at hlt
            rw [show k = 0 from by omega] at hget
            exact Req.noConfusion (Option.some.inj hget)
      · next hpok =>
          obtain ⟨DG, DM, DL, DZ, -, -⟩ := dispatch_spec sched (some lines) ty config
            (if large then RW_EEPROM_LARGE else RW_EEPROM) wv wp
            ([] ++ [Req.read GET_EEPROM_SIZE (0 % 65536) 1]) hty
            (fun l h => by injection h with e; rw [← e]; exact hsize lines rfl)
          refine ⟨GoodExt_comp (GoodExt_read sched [] _ _ _ 0) (by norm_num) DG,
            ?_, DL, ?_⟩
          · intro k r hget hw
            rcases DM with he | ⟨Δ, he⟩
            · rw [he, List.nil_append] at hget
              have hlt := get?_some_lt hget
              simp only [List.length_singleton] at hlt
              rw [show k = 0 from by omega] at hget
              rw [← Option.some.inj hget] at hw
              exact absurd hw (by decide)
            · refine ⟨[] ++ [Req.read GET_EEPROM_SIZE (0 % 65536) 1], Δ, he, ?_⟩
              intro r2 hr2
              simp only [List.nil_append, List.mem_singleton] at hr2
              rw [hr2]
              rfl
          · intro hneg k op d2 hget hs
            rcases Nat.eq_zero_or_pos k with hk0 | hk1
            · subst hk0
              rcases DM with he | ⟨Δ, he⟩ <;> rw [he] at hget
              · rw [List.nil_append] at hget
                exact Req.noConfusion (Option.some.inj hget)
              · rw [List.get?_append (by simp)] at hget
                rw [List.nil_append] at hget
                exact Req.noConfusion (Option.some.inj hget)
            · rcases DZ k op d2 hget
                (by simp only [List.nil_append, List.length_singleton]; omega) hs with
                h | h
              · exact h
              · rw [h] at hneg
                exact absurd hneg (by norm_num)

/-- C1 witness: a concrete successful fx2 run with no image ends with the
nonzero bootable type byte written at offset 0. -/
theorem C1_witness :
    ("fx2" = "fx2" ∨ "fx2" = "fx2lp" ∨ "fx2" = "fx" ∨ "fx2" = "an21") ∧
    (∃ fb, fb ≠ 0 ∧
      (ezusb_load_eeprom (fun _ => 1) (fun _ => 0) none "fx2" 5 false (-1) (-1)).2.getLast? =
        some (Req.write (if false then RW_EEPROM_LARGE else RW_EEPROM) 0 [fb])) :=
  ⟨Or.inl rfl,
    (C1_load_eeprom_boot_safety (fun _ => 1) (fun _ => 0) none "fx2" 5 false
        (-1) (-1) (Or.inl rfl) (fun l h => nomatch h)).2.2.1 (by decide)⟩

/-- C9: in a run of `ezusb_load_eeprom` with an image path whose EEPROM-type
probe succeeds (status 1, size byte 1) and whose unbootable-marker write does
not fail, the request issued right after the marker (trace position 2, after
the probe read and the marker) is the 6-byte identity record at EEPROM
offset 1 — vendor id little-endian, product id little-endian, then 0x05 and
0xa0 — if and only if both the resolved vendor id and the resolved product
id are nonzero, where resolution takes a non-negative override (truncated to
16 bits) and otherwise the variant default; moreover when either resolved id
is zero no write to offset 1 is issued at that position at all. -/
theorem C9_identity_block_iff (sched : Nat → Int) (rdval : Nat → Nat)
    (lines : List (List Nat)) (ty : String) (config : Nat) (large : Bool)
    (wv wp : Int)
    (hty : ty = "fx2" ∨ ty = "fx2lp" ∨ ty = "fx" ∨ ty = "an21")
    (hlen : lines.length ≤ 250)
    (hrd1 : sched 0 = 1) (hrd2 : rdval 0 % 256 = 1) (hmk : ¬ sched 1 < 0) :
    ((ezusb_load_eeprom sched rdval (some lines) ty config large wv wp).2.get? 2 =
        some (Req.write (if large then RW_EEPROM_LARGE else RW_EEPROM) 1
          [resolved_ww wv (eeprom_default_vid ty) &&& 0xff,
           resolved_ww wv (eeprom_default_vid ty) >>> 8 &&& 0xff,
           resolved_ww wp (eeprom_default_pid ty) &&& 0xff,
           resolved_ww wp (eeprom_default_pid ty) >>> 8 &&& 0xff, 0x05, 0xa0]) ↔
      (resolved_ww wv (eeprom_default_vid ty) ≠ 0 ∧
       resolved_ww wp (eeprom_default_pid ty) ≠ 0)) ∧
    ((resolved_ww wv (eeprom_default_vid ty) = 0 ∨
      resolved_ww wp (eeprom_default_pid ty) = 0) → ∀ op dd,
      (ezusb_load_eeprom sched rdval (some lines) ty config large wv wp).2.get? 2 ≠
        some (Req.write op 1 dd)) := by
  simp only [ezusb_load_eeprom, ezusb_read]
  rw [if_neg (by simp only [List.length_nil]; rw [hrd1, hrd2]; simp)]
  obtain ⟨-, -, -, -, DIp, DIn⟩ := dispatch_spec sched (some lines) ty config
    (if large then RW_EEPROM_LARGE else RW_EEPROM) wv wp
    ([] ++ [Req.read GET_EEPROM_SIZE (0 % 65536) 1]) hty
    (fun l h => by injection h with e; rw [← e]; exact hlen)
  rw [show (2 : Nat) =
    ([] ++ [Req.read GET_EEPROM_SIZE (0 % 65536) 1] : List Req).length + 1 from rfl]
  constructor
  · constructor
    · intro hq
      by_contra hc
      have hz : resolved_ww wv (eeprom_default_vid ty) = 0 ∨
          resolved_ww wp (eeprom_default_pid ty) = 0 := by
        rcases not_and_or.mp hc with h1 | h1
        · exact Or.inl (not_not.mp h1)
        · exact Or.inr (not_not.mp h1)
      exact DIn lines rfl hz _ _ hq
    · intro hvw
      exact DIp lines rfl hvw.1 hvw.2 hmk
  · intro hz op dd
    exact DIn lines rfl hz op dd

/-- C9 witness: the instantiated equivalence for a concrete fx2 run with an
empty image, default ids and successful transfers. -/
theorem C9_witness :
    (ezusb_load_eeprom (fun _ => 1) (fun _ => 1) (some []) "fx2" 0 false
        (-1) (-1)).2.get? 2 =
      some (Req.write (if false then RW_EEPROM_LARGE else RW_EEPROM) 1
        [resolved_ww (-1) (eeprom_default_vid "fx2") &&& 0xff,
         resolved_ww (-1) (eeprom_default_vid "fx2") >>> 8 &&& 0xff,
         resolved_ww (-1) (eeprom_default_pid "fx2") &&& 0xff,
         resolved_ww (-1) (eeprom_default_pid "fx2") >>> 8 &&& 0xff, 0x05, 0xa0]) :=
  ((C9_identity_block_iff (fun _ => 1) (fun _ => 1) [] "fx2" 0 false (-1) (-1)
      (Or.inl rfl) (by decide) rfl rfl (by decide)).1).mpr
    ⟨by decide, by decide⟩

/-- One 1-byte segment flushed through `eeprom_poke` under `caSched`, from a
trace position below the failing one: header at the cursor, payload 4 bytes
later, cursor advanced by 5 mod 2^16. -/
theorem caPoke (c : Nat) (tr : List Req) (h : tr.length + 2 ≤ 78644) :
    eeprom_poke caSched
      (({ ee_addr := c, last := false, eeprom_request := RW_EEPROM } :
        eeprom_poke_context), tr) 0 false [170]
    = (0, ({ ee_addr := (c + 4 + 1) % 65536, last := false,
             eeprom_request := RW_EEPROM } : eeprom_poke_context),
        tr ++ [Req.write RW_EEPROM (c % 65536) [0, 1, 0, 0],
               Req.write RW_EEPROM ((c + 4) % 65536) [170]]) := by
  have h1 : caSched tr.length = 1 := if_neg (by omega)
  have h2 : caSched (tr.length + 1) = 1 := if_neg (by omega)
  simp +decide [eeprom_poke, ezusb_write, h1, h2]

/-- The first `caLine` of an image is appended to the empty buffer: one byte
0xAA buffered at address 0, `first_line` cleared, nothing flushed. -/
theorem caFirst (L : List (List Nat)) (s : eeprom_poke_context × List Req) :
    parse_ihex_go (some fx2_is_external) (eeprom_poke caSched) (caLine :: L)
      s 0 [] true false =
    parse_ihex_go (some fx2_is_external) (eeprom_poke caSched) L
      s 0 [170] false false := by
  simp +decide [parse_ihex_go]
  rw [show ihexField caLine 3 4 % 65536 = 0 from by decide,
    show ihexBytes caLine (ihexField caLine 1 2) = [170] from by decide]

/-- Every further `caLine` flushes the buffered 1-byte segment (offset 0 is
not contiguous with buffer end 1) and re-buffers one byte at address 0. -/
theorem caStep (L : List (List Nat)) (c : Nat) (tr : List Req)
    (h : tr.length + 2 ≤ 78644) :
    parse_ihex_go (some fx2_is_external) (eeprom_poke caSched) (caLine :: L)
      (({ ee_addr := c, last := false, eeprom_request := RW_EEPROM } :
        eeprom_poke_context), tr) 0 [170] false false =
    parse_ihex_go (some fx2_is_external) (eeprom_poke caSched) L
      (({ ee_addr := (c + 4 + 1) % 65536, last := false,
          eeprom_request := RW_EEPROM } : eeprom_poke_context),
        tr ++ [Req.write RW_EEPROM (c % 65536) [0, 1, 0, 0],
               Req.write RW_EEPROM ((c + 4) % 65536) [170]]) 0 [170] false false := by
  simp +decide [parse_ihex_go, ihexFlush]
  rw [show ihexField caLine 3 4 % 65536 = 0 from by decide,
    show ihexBytes caLine (ihexField caLine 1 2) = [170] from by decide,
    show fx2_is_external 0 1 = false from by decide]
  rw [caPoke c tr h]
  simp

/-- End of input with one byte still buffered: the final flush frames it and
the loop returns 0. -/
theorem caNil (c : Nat) (tr : List Req) (h : tr.length + 2 ≤ 78644) :
    parse_ihex_go (some fx2_is_external) (eeprom_poke caSched)
      ([] : List (List Nat))
      (({ ee_addr := c, last := false, eeprom_request := RW_EEPROM } :
        eeprom_poke_context), tr) 0 [170] false false =
    (0, ({ ee_addr := (c + 4 + 1) % 65536, last := false,
           eeprom_request := RW_EEPROM } : eeprom_poke_context),
      tr ++ [Req.write RW_EEPROM (c % 65536) [0, 1, 0, 0],
             Req.write RW_EEPROM ((c + 4) % 65536) [170]]) := by
  simp +decide [parse_ihex_go, ihexFlush]
  rw [show fx2_is_external 0 1 = false from by decide]
  rw [caPoke c tr h]
  simp

/-- The record loop over `n` remaining `caLine`s with one byte buffered:
`n + 1` flushes (the last at end of input), cursor iterated `n + 1` times. -/
theorem caRun : ∀ (n c : Nat) (tr : List Req),
    tr.length + 2 * n + 2 ≤ 78644 →
    parse_ihex_go (some fx2_is_external) (eeprom_poke caSched)
      (List.replicate n caLine)
      (({ ee_addr := c, last := false, eeprom_request := RW_EEPROM } :
        eeprom_poke_context), tr) 0 [170] false false =
    (0, ({ ee_addr := caCursor c (n + 1), last := false,
           eeprom_request := RW_EEPROM } : eeprom_poke_context),
      tr ++ caFlushes c (n + 1)) := by
  intro n
  induction n with
  | zero =>
      intro c tr hb
      rw [List.replicate_zero, caNil c tr (by omega)]
      rfl
  | succ n ih =>
      intro c tr hb
      rw [List.replicate_succ, caStep (List.replicate n caLine) c tr (by omega)]
      rw [ih ((c + 4 + 1) % 65536) _
        (by simp only [List.length_append, List.length_cons, List.length_nil]; omega)]
      rw [show caCursor c (n + 1 + 1) = caCursor ((c + 4 + 1) % 65536) (n + 1) from rfl]
      rw [show caFlushes c (n + 1 + 1) =
        Req.write RW_EEPROM (c % 65536) [0, 1, 0, 0] ::
        Req.write RW_EEPROM ((c + 4) % 65536) [170] ::
        caFlushes ((c + 4 + 1) % 65536) (n + 1) from rfl]
      simp

/-- Closed form of the iterated cursor: starting below 2^16, `n` 1-byte
flushes land on `(c + 5n) % 2^16`. -/
theorem caCursor_eq : ∀ (n c : Nat), c < 65536 →
    caCursor c n = (c + 5 * n) % 65536 := by
  intro n
  induction n with
  | zero =>
      intro c hc
      simp [caCursor, Nat.mod_eq_of_lt hc]
  | succ n ih =>
      intro c hc
      rw [show caCursor c (n + 1) = caCursor ((c + 4 + 1) % 65536) n from rfl]
      rw [ih ((c + 4 + 1) % 65536) (Nat.mod_lt _ (by omega))]
      rw [Nat.mod_add_mod]
      congr 1
      ring

/-- Each flushed segment contributes exactly two requests. -/
theorem caFlushes_length : ∀ (n c : Nat), (caFlushes c n).length = 2 * n := by
  intro n
  induction n with
  | zero =>
      intro c
      rfl
  | succ n ih =>
      intro c
      rw [show caFlushes c (n + 1) =
        Req.write RW_EEPROM (c % 65536) [0, 1, 0, 0] ::
        Req.write RW_EEPROM ((c + 4) % 65536) [170] ::
        caFlushes ((c + 4 + 1) % 65536) n from rfl]
      simp only [List.length_cons, ih]
      omega

/-- The complete cursor-wrap run: probe and marker succeed, 39320 one-byte
segments advance the 16-bit cursor from 8 to (8 + 5 * 39320) % 65536 = 0,
the last-marked reset frame's header `[0x80, 1, 0xe6, 0]` is therefore
written at EEPROM offset 0 (succeeding), and the trailer's config-byte
write fails, aborting the call. -/
theorem caE_eq :
    ezusb_load_eeprom caSched (fun _ => 1) (some caLines) "fx2" 0 false 0 0 =
    (-1,
      Req.read GET_EEPROM_SIZE 0 1 :: Req.write RW_EEPROM 0 [0] ::
        (caFlushes 8 39320 ++
          [Req.write RW_EEPROM 0 [128, 1, 230, 0],
           Req.write RW_EEPROM 4 [0],
           Req.write RW_EEPROM 7 [0]])) := by
  have hpr : parse_ihex_go (some fx2_is_external) (eeprom_poke caSched) caLines
      (({ ee_addr := 8, last := false, eeprom_request := RW_EEPROM } :
        eeprom_poke_context),
       ([] ++ [Req.read GET_EEPROM_SIZE (0 % 65536) 1]) ++
         [Req.write RW_EEPROM (0 % 65536) [0]]) 0 [] true false =
      (0, ({ ee_addr := 0, last := false, eeprom_request := RW_EEPROM } :
        eeprom_poke_context),
       (([] ++ [Req.read GET_EEPROM_SIZE (0 % 65536) 1]) ++
         [Req.write RW_EEPROM (0 % 65536) [0]]) ++ caFlushes 8 39320) := by
    rw [show caLines = caLine :: List.replicate 39319 caLine from rfl]
    rw [caFirst]
    rw [caRun 39319 8 _ (by simp)]
    rw [caCursor_eq (39319 + 1) 8 (by norm_num)]
  generalize hF : caFlushes 8 39320 = F
  rw [hF] at hpr
  have hFlen : F.length = 78640 := by
    rw [← hF, caFlushes_length]
  obtain ⟨T, hTdef⟩ : ∃ T,
      (([] ++ [Req.read GET_EEPROM_SIZE (0 % 65536) 1]) ++
        [Req.write RW_EEPROM (0 % 65536) [0]]) ++ F = T := ⟨_, rfl⟩
  rw [hTdef] at hpr
  have hTlen : T.length = 78642 := by
    rw [← hTdef, List.length_append, List.length_append, List.length_append,
      List.length_singleton, List.length_singleton, List.length_nil, hFlen]
  have h1 : caSched T.length = 1 := by
    rw [hTlen]; decide
  have h2 : caSched (T.length + 1) = 1 := by
    rw [hTlen]; decide
  have hrp : eeprom_poke caSched
      (({ ee_addr := 0, last := true, eeprom_request := RW_EEPROM } :
        eeprom_poke_context), T) 0xe600 false [0] =
      (0, ({ ee_addr := 5, last := true, eeprom_request := RW_EEPROM } :
        eeprom_poke_context),
       T ++ [Req.write RW_EEPROM 0 [128, 1, 230, 0],
             Req.write RW_EEPROM 4 [0]]) := by
    simp +decide [eeprom_poke, ezusb_write, h1, h2]
  have h3 : caSched ((T ++ [Req.write RW_EEPROM 0 [128, 1, 230, 0],
      Req.write RW_EEPROM 4 [0]]).length) = -1 := by
    rw [List.length_append, hTlen]
    decide
  generalize hL : caLines = L
  rw [hL] at hpr
  simp only [ezusb_load_eeprom, ezusb_read, Bool.false_eq_true, if_false]
  rw [if_neg (by decide)]
  simp only [ezusb_load_eeprom_dispatch, if_pos rfl]
  simp only [ezusb_load_eeprom_body, ezusb_write]
  rw [show caSched ([] ++ [Req.read GET_EEPROM_SIZE (0 % 65536) 1] :
    List Req).length = 1 from by decide]
  rw [if_neg (by decide : ¬ (1 : Int) < 0)]
  rw [if_neg (by decide :
    ¬ ((if 0 ≤ (0 : Int) then (0 : Int).toNat % 65536 else 0x04B4) ≠ 0 ∧
       (if 0 ≤ (0 : Int) then (0 : Int).toNat % 65536 else 0x6473) ≠ 0))]
  dsimp only
  rw [if_neg (by decide : ¬ (0 : Int) < 0)]
  simp only [ezusb_load_eeprom_tail, parse_ihex]
  rw [hpr]
  dsimp only
  rw [if_neg (by decide : ¬ (0 : Int) < 0)]
  rw [hrp]
  dsimp only
  rw [if_neg (by decide : ¬ (0 : Int) < 0)]
  simp only [ezusb_load_eeprom_trailer, ezusb_write]
  rw [h3]
  rw [if_pos trivial]
  rw [if_pos (by decide : ("fx2" : String) ≠ "an21")]
  dsimp only
  rw [if_pos (by decide : (-1 : Int) < 0)]
  rw [← hTdef]
  simp

/-- C1 counterexample: the claim's "after any aborted call the type byte was
last written as 0" fails once the 16-bit EEPROM cursor wraps.  In the
39320-record run of `caLines` the cursor returns to offset 0 exactly when
the last-marked reset frame is poked, so its header — first byte
0x80 ||| lengthHigh = 0x80, a nonzero type byte — is written at EEPROM
offset 0 and succeeds (schedule position 78642 is non-negative); the
trailer's config write then fails, the call aborts with a negative status,
and no later write touches offset 0: the aborted device is left bootable. -/
theorem C1_counterexample :
    (ezusb_load_eeprom caSched (fun _ => 1) (some caLines) "fx2" 0 false 0 0).1 < 0 ∧
    (ezusb_load_eeprom caSched (fun _ => 1) (some caLines) "fx2" 0 false 0 0).2.get?
      78642 = some (Req.write RW_EEPROM 0 [128, 1, 230, 0]) ∧
    0 ≤ caSched 78642 ∧
    (∀ k r,
      (ezusb_load_eeprom caSched (fun _ => 1) (some caLines) "fx2" 0 false 0 0).2.get?
        k = some r → 78642 < k → ∀ op d2, r ≠ Req.write op 0 d2) := by
  rw [caE_eq]
  generalize hF : caFlushes 8 39320 = F
  have hPlen : ([Req.read GET_EEPROM_SIZE 0 1, Req.write RW_EEPROM 0 [0]] ++ F).length
      = 78642 := by
    rw [List.length_append, ← hF, caFlushes_length]
    decide
  have hsplit : (Req.read GET_EEPROM_SIZE 0 1 :: Req.write RW_EEPROM 0 [0] ::
      (F ++ [Req.write RW_EEPROM 0 [128, 1, 230, 0],
             Req.write RW_EEPROM 4 [0],
             Req.write RW_EEPROM 7 [0]])) =
      ([Req.read GET_EEPROM_SIZE 0 1, Req.write RW_EEPROM 0 [0]] ++ F) ++
        [Req.write RW_EEPROM 0 [128, 1, 230, 0],
         Req.write RW_EEPROM 4 [0],
         Req.write RW_EEPROM 7 [0]] := by
    rw [List.append_assoc]
    rfl
  refine ⟨by norm_num, ?_, by decide, ?_⟩
  · dsimp only
    rw [hsplit, get?_append_sub (by omega), hPlen, Nat.sub_self]
    rfl
  · intro k r hget hk op d2
    dsimp only at hget
    rw [hsplit] at hget
    have hklt := get?_some_lt hget
    rw [List.length_append, hPlen,
      show ([Req.write RW_EEPROM 0 [128, 1, 230, 0], Req.write RW_EEPROM 4 [0],
        Req.write RW_EEPROM 7 [0]] : List Req).length = 3 from rfl] at hklt
    rw [get?_append_sub (by omega), hPlen] at hget
    have hj : k - 78642 = 1 ∨ k - 78642 = 2 := by omega
    rcases hj with h0 | h0 <;> rw [h0] at hget
    · rw [← Option.some.inj hget]
      exact write_addr_ne (by decide)
    · rw [← Option.some.inj hget]
      exact write_addr_ne (by decide)
